import Mathlib

/-!
Verification of the quiz/exam engine of the `qapp` repository.

The development shallowly embeds the engine functions of
`src/streamlit_app_mongo.py` (and, where a claim cites it, the earlier
sqlite revision `src/streamlit_app.py`) as executable Lean definitions:

* Python strings are modelled as lists of character codepoints (`Str`),
  with `strTrim`, `strUpper`, `strLower`, `splitOnL`, `replaceL`
  modelling `str.strip`, `str.upper`, `str.lower`, `str.split`,
  `str.replace` (ASCII case mapping, as used by the data involved);
* the document store is a `Store` structure holding the four record
  collections (`questionarios`, `questoes`, `respostas`, `simulados`)
  as lists in insertion order, with fresh ids from a counter;
* each database helper of the source becomes a state-passing function;
  Python exceptions raised by a helper become `Except`/`Option` errors,
  and writes performed before a raise are kept (as in the real program,
  where a raise does not undo prior MongoDB inserts);
* `random.shuffle` / `$sample` are modelled by an explicit selector
  argument (`pickBy`): adequacy of every claim proved here is
  independent of the randomness.

Timestamps are modelled as naturals; the source compares ISO UTC
timestamp strings lexicographically, which is order-isomorphic.
-/

/-! ## Python strings as codepoint lists -/

/-- A Python string, as its list of character codepoints. -/
abbrev Str := List Nat

/-- Codepoints of a Lean string literal (to write `Str` constants). -/
def str (s : String) : Str := s.toList.map Char.toNat

/-- Model of `str.isspace` for one ASCII character (space, tab, LF, CR). -/
def isWS (c : Nat) : Bool := c = 32 ∨ c = 9 ∨ c = 10 ∨ c = 13

/-- Model of Python `str.strip` (both ends). -/
def strTrim (s : Str) : Str :=
  ((s.dropWhile isWS).reverse.dropWhile isWS).reverse

/-- ASCII uppercase mapping of one character (model of `str.upper`). -/
def charUpper (c : Nat) : Nat := if 97 ≤ c ∧ c ≤ 122 then c - 32 else c

/-- ASCII lowercase mapping of one character (model of `str.lower`). -/
def charLower (c : Nat) : Nat := if 65 ≤ c ∧ c ≤ 90 then c + 32 else c

/-- Model of Python `str.upper`. -/
def strUpper (s : Str) : Str := s.map charUpper

/-- Model of Python `str.lower`. -/
def strLower (s : Str) : Str := s.map charLower

/-- Worker of `splitOnL`, structurally recursive on a fuel that bounds
the number of characters still to be consumed (each step consumes at
least one character of a non-empty input). -/
def splitGo (sep : Str) : Nat → Str → List Str
  | _, [] => [[]]
  | 0, s => [s]
  | fuel + 1, c :: rest =>
    if sep.isPrefixOf (c :: rest) then
      [] :: splitGo sep fuel (List.drop sep.length (c :: rest))
    else
      match splitGo sep fuel rest with
      | [] => [[c]]
      | t :: ts => (c :: t) :: ts

/-- Model of Python `str.split(sep)` for a non-empty separator:
splits on non-overlapping occurrences, left to right. -/
def splitOnL (sep : Str) (s : Str) : List Str :=
  if sep = [] then [s] else splitGo sep s.length s

/-- Model of Python `str.replace(old, new)` for a non-empty `old`. -/
def replaceL (old new s : Str) : Str :=
  List.intercalate new (splitOnL old s)

/-! ## Data model: the four record kinds -/

/-- A `questoes` document (one Question). `op_a`‥`op_e` are the
multiple-choice options (absent field = `none`). -/
structure Questao where
  id : Nat
  questionario_id : Nat
  tipo : Str
  texto : Str
  explicacao : Str
  correta_text : Str
  op_a : Option Str
  op_b : Option Str
  op_c : Option Str
  op_d : Option Str
  op_e : Option Str
  deriving Repr, DecidableEq

/-- A `questionarios` document (one Questionnaire), including the
persisted practice progress fields (`progress_pool`, `progress_idx`;
an absent progress is the empty pool). -/
structure Questionario where
  id : Nat
  nome : Str
  descricao : Str
  disciplina : Str
  progress_pool : List Nat
  progress_idx : Nat
  deriving Repr, DecidableEq

/-- A `respostas` document (one AnswerEvent). -/
structure Resposta where
  questionario_id : Nat
  questao_id : Nat
  correto : Bool
  respondido_em : Nat
  deriving Repr, DecidableEq

/-- One recorded sub-answer of an exam (`simulados.respostas` entry). -/
structure SimResposta where
  questao_id : Nat
  correto : Bool
  resposta : Str
  respondido_em : Nat
  deriving Repr, DecidableEq

/-- A `simulados` document (one Exam). -/
structure Simulado where
  id : Nat
  nome : Str
  pool_ids : List Nat
  idx : Nat
  acertos : Nat
  total : Nat
  status : Str
  respostas : List SimResposta
  created_at : Nat
  updated_at : Nat
  deriving Repr, DecidableEq

/-- The document store: the four collections, in insertion order,
plus a fresh-id counter. -/
structure Store where
  questionarios : List Questionario
  questoes : List Questao
  respostas : List Resposta
  simulados : List Simulado
  nextId : Nat
  deriving Repr, DecidableEq

/-- The empty store. -/
def Store.empty : Store := ⟨[], [], [], [], 0⟩

/-! ## Balanced allocation (`get_balanced_random_questoes_por_questionario`) -/

/-- Worker of `rr_loop`, structurally recursive on the remaining
iteration budget of the loop's own safety counter (the source breaks
once the counter `i` exceeds 100000, so at most `100001 - i` further
iterations can run). -/
def rr_go (counts : List Nat) : Nat → Nat → Nat → List Nat → List Nat
  | 0, _, _, alloc => alloc
  | fuel + 1, remaining, i, alloc =>
    if remaining = 0 ∨ counts = [] then alloc
    else
      let j := i % counts.length
      let hit := alloc.getD j 0 < counts.getD j 0
      let alloc' := if hit then alloc.set j (alloc.getD j 0 + 1) else alloc
      let remaining' := if hit then remaining - 1 else remaining
      if 100000 < i + 1 then alloc'
      else rr_go counts fuel remaining' (i + 1) alloc'

/-- The remainder round-robin loop of
`get_balanced_random_questoes_por_questionario` (lines 379–389 of
`streamlit_app_mongo.py`): starting at index `i`, hand one unit to the
next questionnaire that still has spare capacity, decrementing
`remaining`; the source guards against an infinite loop by breaking
once the iteration counter exceeds 100000. -/
def rr_loop (counts : List Nat) (remaining i : Nat) (alloc : List Nat) : List Nat :=
  rr_go counts (100001 - i) remaining i alloc

/-- The allocation phase of `get_balanced_random_questoes_por_questionario`
(lines 347–390): availability counts come in per questionnaire, in
order; questionnaires with no available question are dropped (`alive`),
each survivor gets `min base availability` and the remainder is
round-robined.  Returns the per-questionnaire allocation, aligned with
`counts.filter (0 < ·)`. -/
def balanced_alloc (counts : List Nat) (n : Nat) : List Nat :=
  if n = 0 then []
  else
    let total_disp := counts.sum
    if total_disp = 0 then []
    else
      let target := min n total_disp
      let alive := counts.filter (fun c => 0 < c)
      if alive = [] then []
      else
        let base := target / alive.length
        let alloc0 := alive.map (fun c => min base c)
        rr_loop alive (target - alloc0.sum) 0 alloc0

/-! ## Store helpers (`streamlit_app_mongo.py`) -/

/-- Reserved questionnaire name `"Favoritos"`. -/
def nomeFavoritos : Str := str "Favoritos"

/-- Reserved questionnaire name `"Caderno de Erros"`. -/
def nomeCadernoErros : Str := str "Caderno de Erros"

/-- The system discipline label given to the two reserved questionnaires. -/
def discSistema : Str := str "— Sistema —"

/-- `get_questoes`: the Questions owned by a questionnaire, in insertion
order (the source sorts on ascending `_id`). -/
def questoesFor (st : Store) (questionario_id : Nat) : List Questao :=
  st.questoes.filter (fun q => q.questionario_id == questionario_id)

/-- `get_questionario_by_name` (line 230). -/
def get_questionario_by_name (st : Store) (nome : Str) : Option Questionario :=
  st.questionarios.find? (fun q => q.nome == nome)

/-- `add_questionario` (line 235): inserts and returns the new id. -/
def add_questionario (st : Store) (nome descricao disciplina : Str) : Nat × Store :=
  let q : Questionario :=
    { id := st.nextId, nome := nome, descricao := descricao,
      disciplina := if disciplina = [] then str "Sem Disciplina" else disciplina,
      progress_pool := [], progress_idx := 0 }
  (st.nextId, { st with questionarios := st.questionarios ++ [q], nextId := st.nextId + 1 })

/-- `init_db` (lines 141–178), restricted to its data effect: make sure
the two reserved questionnaires exist, tagged with the system discipline. -/
def init_db (st : Store) : Store :=
  let st1 :=
    if (get_questionario_by_name st nomeFavoritos).isSome then st
    else (add_questionario st nomeFavoritos (str "Questoes salvas como favoritas.") discSistema).2
  if (get_questionario_by_name st1 nomeCadernoErros).isSome then st1
  else (add_questionario st1 nomeCadernoErros (str "Questoes respondidas incorretamente.") discSistema).2

/-- `delete_questionario` (lines 256–264): cascades to owned Questions
and AnswerEvents (the saved progress lives inside the deleted record). -/
def delete_questionario (st : Store) (qid : Nat) : Store :=
  { st with questoes := st.questoes.filter (fun q => q.questionario_id != qid),
            respostas := st.respostas.filter (fun r => r.questionario_id != qid),
            questionarios := st.questionarios.filter (fun q => q.id != qid) }

/-- `resetar_resolucoes` (lines 266–288), restricted to its store
effect: it deletes the questionnaire's AnswerEvents.  (The rest of the
function only clears in-process `st.session_state` keys; it touches no
persisted record, in particular not `progress_pool`/`progress_idx`.) -/
def resetar_resolucoes (st : Store) (qid : Nat) : Store :=
  { st with respostas := st.respostas.filter (fun r => r.questionario_id != qid) }

/-- `add_questao_vf` (lines 290–300). -/
def add_questao_vf (st : Store) (questionario_id : Nat) (texto : Str) (correta : Bool)
    (explicacao : Str) : Store :=
  let q : Questao :=
    { id := st.nextId, questionario_id := questionario_id, tipo := str "VF", texto := texto,
      explicacao := explicacao, correta_text := if correta then str "V" else str "F",
      op_a := none, op_b := none, op_c := none, op_d := none, op_e := none }
  { st with questoes := st.questoes ++ [q], nextId := st.nextId + 1 }

/-- The option letters, `"ABCDE"`. -/
def letrasABCDE : Str := str "ABCDE"

/-- `list("ABCDE")[:len(alternativas)]`: the letters assigned to the
present options, as one-character strings. -/
def letras_validas (len : Nat) : List Str := (letrasABCDE.take len).map (fun c => [c])

/-- `add_questao_mc` (lines 302–325).  The answer key is uppercased and
stripped; if it is not one of the assigned letters, the source scans
the options for a truthy one whose stripped lowercase text equals the
key's; no match raises `ValueError` (and an index past `"ABCDE"` would
raise `IndexError`) — modelled as `Except.error`, in which case nothing
was written. -/
def add_questao_mc (st : Store) (questionario_id : Nat) (texto : Str)
    (alternativas : List Str) (correta_letra : Str) (explicacao : Str) : Except Str Store :=
  let cl := strTrim (strUpper correta_letra)
  let insert := fun (letter : Str) =>
    { st with
      questoes := st.questoes ++
        [{ id := st.nextId, questionario_id := questionario_id, tipo := str "MC",
           texto := texto, explicacao := explicacao, correta_text := letter,
           op_a := alternativas.get? 0, op_b := alternativas.get? 1,
           op_c := alternativas.get? 2, op_d := alternativas.get? 3,
           op_e := alternativas.get? 4 }],
      nextId := st.nextId + 1 }
  if (letras_validas alternativas.length).contains cl then .ok (insert cl)
  else
    match alternativas.findIdx? (fun alt =>
        !alt.isEmpty && (strLower (strTrim alt) == strLower (strTrim cl))) with
    | none => .error (str "Resposta correta invalida para questao MC.")
    | some idx =>
      match letrasABCDE.get? idx with
      | none => .error (str "string index out of range")
      | some c => .ok (insert [c])

/-- `save_resposta` (lines 415–422): appends one AnswerEvent. -/
def save_resposta (st : Store) (questionario_id questao_id : Nat) (correto : Bool)
    (now : Nat) : Store :=
  { st with respostas := st.respostas ++ [⟨questionario_id, questao_id, correto, now⟩] }

/-! ## Performance aggregation (`desempenho_questionario`) -/

/-- Stable insertion used by `sortByTime`: an element being inserted
comes from earlier in the original list than everything already
inserted, so it goes before the first event that is not strictly
earlier. -/
def insertByTime (r : Resposta) : List Resposta → List Resposta
  | [] => [r]
  | s :: rest =>
    if s.respondido_em < r.respondido_em then s :: insertByTime r rest
    else r :: s :: rest

/-- Model of `sorted(respostas, key=lambda x: x.get("respondido_em",""))`:
a stable sort by timestamp. -/
def sortByTime (l : List Resposta) : List Resposta := l.foldr insertByTime []

/-- One Python-dict update: replace in place if the key is present,
else append (insertion order is preserved, as for `dict`). -/
def upsert (m : List (Nat × Bool)) (k : Nat) (v : Bool) : List (Nat × Bool) :=
  match m with
  | [] => [(k, v)]
  | (k', v') :: rest => if k' = k then (k, v) :: rest else (k', v') :: upsert rest k v

/-- `_last_correct_map` (lines 546–551): walk the events sorted by
timestamp and keep, per question, the last one's correctness. -/
def last_correct_map (respostas : List Resposta) : List (Nat × Bool) :=
  (sortByTime respostas).foldl (fun m r => upsert m r.questao_id r.correto) []

/-- `desempenho_questionario` of `streamlit_app_mongo.py` (lines
553–562), as its two counts `(total, acertos)`.  (The percentage is
display formatting of these two numbers and is not modelled.) -/
def desempenho_questionario (st : Store) (questionario_id : Nat) : Nat × Nat :=
  let total := (questoesFor st questionario_id).length
  let respostas := st.respostas.filter (fun r => r.questionario_id == questionario_id)
  let acertos := (last_correct_map respostas).countP (fun e => e.2)
  (total, acertos)

/-- `desempenho_questionario` of the earlier sqlite revision
(`streamlit_app.py` lines 161–174), as `(total, acertos)`: `total`
counts the questionnaire's AnswerEvents and `acertos` the correct ones
— no latest-per-question reduction and no Question count. -/
def desempenho_questionario_sqlite (st : Store) (questionario_id : Nat) : Nat × Nat :=
  let rs := st.respostas.filter (fun r => r.questionario_id == questionario_id)
  (rs.length, rs.countP (fun r => r.correto))

/-- Specification view (§4.3 of the spec): the chronologically last
AnswerEvent of a list, a timestamp tie going to the later-inserted
event. -/
def lastEvent : List Resposta → Option Resposta
  | [] => none
  | r :: rest =>
    match lastEvent rest with
    | none => some r
    | some s => if r.respondido_em ≤ s.respondido_em then some s else some r

/-- The events of one question, in insertion order. -/
def eventsFor (rs : List Resposta) (q : Nat) : List Resposta :=
  rs.filter (fun r => r.questao_id == q)

/-- Specification count for §4.3: how many distinct questions have a
correct chronologically-last AnswerEvent. -/
def spec_correct (rs : List Resposta) : Nat :=
  ((rs.map (fun r => r.questao_id)).dedup).countP
    (fun q => ((lastEvent (eventsFor rs q)).map (fun r => r.correto)).getD false)

/-! ## CSV importer (`import_csv_to_db`) -/

/-- `normalize_bool` (lines 683–687) on a CSV field. -/
def normalize_bool (val : Str) : Bool :=
  [str "v", str "true", str "t", str "1", str "sim", str "s", str "verdadeiro"].contains
    (strLower (strTrim val))

/-- `parse_alternativas` (lines 689–696): split the options field on
`"@@"`, strip, drop empties, cap at 5. -/
def parse_alternativas (val : Str) : List Str :=
  (((splitOnL (str "@@") (strTrim val)).map strTrim).filter (fun p => !p.isEmpty)).take 5

/-- `processar_texto` (lines 706–710): literal `\n` becomes a newline. -/
def processar_texto (texto : Str) : Str :=
  if texto = [] then texto else replaceL (str "\\n") (str "\n") texto

/-- `ensure_questionario` (lines 698–704). -/
def ensure_questionario (st : Store) (nome disciplina : Str) : Nat × Store :=
  let nome := if strTrim nome = [] then str "Sem Titulo" else strTrim nome
  match get_questionario_by_name st nome with
  | some q => (q.id, st)
  | none => add_questionario st nome [] disciplina

/-- One CSV data row, by recognized column (an absent optional column
reads as the empty string, as `row.get(..., "")` does). -/
structure Row where
  tipo : Str
  questionario : Str
  texto : Str
  correta : Str
  explicacao : Str
  alternativas : Str
  disciplina : Str
  deriving Repr, DecidableEq

/-- The body of the per-row `try` block of `import_csv_to_db` (lines
736–761).  A raise is modelled as `some message`; writes made before
the raise (the questionnaire of `ensure_questionario`) are kept, as in
the source, where the exception does not undo prior inserts. -/
def processRow (st : Store) (row : Row) : Store × Option Str :=
  let tipo := strUpper (strTrim row.tipo)
  let questionario := if strTrim row.questionario = [] then str "Sem Titulo"
                      else strTrim row.questionario
  let disciplina_csv := if strTrim row.disciplina = [] then str "Sem Disciplina"
                        else strTrim row.disciplina
  let texto := processar_texto (strTrim row.texto)
  let correta := strTrim row.correta
  let explicacao := processar_texto row.explicacao
  if texto = [] then (st, some (str "Texto da questao vazio."))
  else
    let qs := ensure_questionario st questionario disciplina_csv
    if tipo = str "VF" then
      (add_questao_vf qs.2 qs.1 texto (normalize_bool correta) explicacao, none)
    else if tipo = str "MC" then
      let alternativas := (parse_alternativas row.alternativas).map processar_texto
      if alternativas.length < 2 then
        (qs.2, some (str "Questao MC requer ao menos 2 alternativas."))
      else
        match add_questao_mc qs.2 qs.1 texto alternativas correta explicacao with
        | .ok st2 => (st2, none)
        | .error e => (qs.2, some e)
    else (qs.2, some (str "tipo deve ser VF ou MC."))

/-- The row loop of `import_csv_to_db` (lines 734–763):
`for i, row in enumerate(reader, start=2)` with the per-row
`try`/`except` appending `(i, message)` and continuing. -/
def import_rows (st : Store) : List Row → Nat → Nat → List (Nat × Str) →
    Store × Nat × List (Nat × Str)
  | [], _, ok, erros => (st, ok, erros)
  | row :: rest, i, ok, erros =>
    match processRow st row with
    | (st', none) => import_rows st' rest (i + 1) (ok + 1) erros
    | (st', some e) => import_rows st' rest (i + 1) ok (erros ++ [(i, e)])

/-- The required header columns (line 729). -/
def requiredCols : List Str := [str "tipo", str "questionario", str "texto", str "correta"]

/-- `import_csv_to_db` (lines 712–766), on an already-parsed CSV
(header fields and data rows): abort the whole import when a required
column is missing from the header, otherwise run the row loop from
row number 2 and return `(successCount, orderedRowErrors)` along with
the store. -/
def import_csv_to_db (header : List Str) (rows : List Row) (st : Store) :
    Except Str (Store × Nat × List (Nat × Str)) :=
  let missing := requiredCols.filter (fun r => !header.contains r)
  if missing = [] then .ok (import_rows st rows 2 0 [])
  else .error (str "CSV sem colunas obrigatorias")

/-! ## Exams (`simulados`) -/

/-- `create_simulado` (lines 429–445): persists the frozen pool and
returns the new id. -/
def create_simulado (st : Store) (nome : Str) (pool_ids : List Nat) (now : Nat) :
    Nat × Store :=
  let nome' := if strTrim nome = [] then str "Simulado " ++ (Nat.toDigits 10 now).map Char.toNat
               else strTrim nome
  let sim : Simulado :=
    { id := st.nextId, nome := nome', pool_ids := pool_ids, idx := 0, acertos := 0,
      total := pool_ids.length, status := str "in_progress", respostas := [],
      created_at := now, updated_at := now }
  (st.nextId, { st with simulados := st.simulados ++ [sim], nextId := st.nextId + 1 })

/-- `get_simulado` (lines 469–475). -/
def get_simulado (st : Store) (sim_id : Nat) : Option Simulado :=
  st.simulados.find? (fun s => s.id == sim_id)

/-- `update_simulado_nome` (lines 477–483). -/
def update_simulado_nome (st : Store) (sim_id : Nat) (novo_nome : Str) (now : Nat) : Store :=
  { st with simulados := st.simulados.map (fun s =>
      if s.id = sim_id then { s with nome := strTrim novo_nome, updated_at := now } else s) }

/-- `update_simulado_progress` (lines 485–495): sets whichever of
cursor, score and status are supplied. -/
def update_simulado_progress (st : Store) (sim_id : Nat) (idx acertos : Option Nat)
    (status : Option Str) (now : Nat) : Store :=
  { st with simulados := st.simulados.map (fun s =>
      if s.id = sim_id then
        { s with
          updated_at := now
          idx := idx.getD s.idx
          acertos := acertos.getD s.acertos
          status := status.getD s.status }
      else s) }

/-- `add_simulado_resposta` (lines 497–510): appends one recorded
sub-answer. -/
def add_simulado_resposta (st : Store) (sim_id questao_id : Nat) (correto : Bool)
    (resposta_raw : Str) (now : Nat) : Store :=
  { st with simulados := st.simulados.map (fun s =>
      if s.id = sim_id then
        { s with
          respostas := s.respostas ++ [⟨questao_id, correto, resposta_raw, now⟩]
          updated_at := now }
      else s) }

/-- The store operations that can run against an exam after its
creation (progress/cursor updates, answer recording, rename,
finishing), together with concurrent mutations of the question
collections. -/
inductive SimOp where
  | progress (sim_id : Nat) (idx acertos : Option Nat) (status : Option Str) (now : Nat)
  | resposta (sim_id questao_id : Nat) (correto : Bool) (raw : Str) (now : Nat)
  | rename (sim_id : Nat) (nome : Str) (now : Nat)
  | vf (questionario_id : Nat) (texto : Str) (correta : Bool) (explicacao : Str)
  | mc (questionario_id : Nat) (texto : Str) (alternativas : List Str) (correta : Str)
       (explicacao : Str)
  | delQuestionario (qid : Nat)
  | saveResposta (questionario_id questao_id : Nat) (correto : Bool) (now : Nat)
  deriving Repr

/-- Interpret one `SimOp` against the store (a failing `add_questao_mc`
writes nothing). -/
def applySimOp (st : Store) : SimOp → Store
  | .progress sid i a s now => update_simulado_progress st sid i a s now
  | .resposta sid q c r now => add_simulado_resposta st sid q c r now
  | .rename sid n now => update_simulado_nome st sid n now
  | .vf qid t c e => add_questao_vf st qid t c e
  | .mc qid t alts c e =>
    match add_questao_mc st qid t alts c e with
    | .ok st' => st'
    | .error _ => st
  | .delQuestionario q => delete_questionario st q
  | .saveResposta a b c now => save_resposta st a b c now

/-- A whole sequence of post-creation operations. -/
def applySimOps (st : Store) (ops : List SimOp) : Store := ops.foldl applySimOp st

/-! ## Practice progress (pool manager persistence) -/

/-- `get_questionario_progress` (lines 518–531). -/
def get_questionario_progress (st : Store) (questionario_id : Nat) : List Nat × Nat :=
  match st.questionarios.find? (fun q => q.id == questionario_id) with
  | none => ([], 0)
  | some q => (q.progress_pool, q.progress_idx)

/-- `set_questionario_progress` (lines 533–543). -/
def set_questionario_progress (st : Store) (questionario_id : Nat) (pool : List Nat)
    (idx : Nat) : Store :=
  { st with questionarios := st.questionarios.map (fun q =>
      if q.id = questionario_id then { q with progress_pool := pool, progress_idx := idx }
      else q) }

/-- The resume step of the practice page (lines 1268–1285), run when a
fresh process has no in-memory session state: the persisted pool is
intersected with the questionnaire's current question ids; if anything
survives it is resumed with the cursor clamped, otherwise a freshly
shuffled pool (`shuffled` models the `random.shuffle` outcome) starts
at 0. -/
def resume_progress (st : Store) (qid : Nat) (shuffled : List Nat) : List Nat × Nat :=
  let saved := get_questionario_progress st qid
  let current := (questoesFor st qid).map (fun q => q.id)
  let sp := saved.1.filter (fun x => current.contains x)
  if sp = [] then (shuffled, 0)
  else (sp, min saved.2 (sp.length - 1))

/-! ## Exam assembly sources and sampling -/

/-- Sampling/shuffling modelled by an explicit index selector: the
elements of `l` at the chosen indices.  Every outcome of `$sample` or
`random.shuffle` is `pickBy l idxs` for some `idxs`. -/
def pickBy (l : List Questao) (idxs : List Nat) : List Questao :=
  idxs.filterMap (fun i => l.get? i)

/-- `get_random_questoes` (lines 337–344): up to `n` questions sampled
from the union of the chosen questionnaires. -/
def get_random_questoes (st : Store) (questionario_ids : List Nat) (n : Nat)
    (sel : List Nat) : List Questao :=
  (pickBy (st.questoes.filter (fun q => questionario_ids.contains q.questionario_id)) sel).take n

/-- The questionnaire options of the direct ("Por questionário") exam
mode (`page_simulado`, line 1480): every questionnaire except
`Favoritos`. -/
def simulado_options_direct (st : Store) : List Questionario :=
  st.questionarios.filter (fun q => q.nome != nomeFavoritos)

/-- `get_questionarios_por_disciplina` (lines 405–412): the
questionnaires of the chosen disciplines, `Favoritos` excluded. -/
def get_questionarios_por_disciplina (st : Store) (disciplinas : List Str) :
    List Questionario :=
  if disciplinas = [] then []
  else st.questionarios.filter (fun q =>
    q.nome != nomeFavoritos &&
    disciplinas.contains (if q.disciplina = [] then str "Sem Disciplina" else q.disciplina))

/-- The sampling half of `get_balanced_random_questoes_por_questionario`
(lines 391–403): for each surviving questionnaire, sample its allocated
count, concatenate, and shuffle the result (`sels` and `shuffle` model
the randomness). -/
def balanced_pool (st : Store) (questionario_ids : List Nat) (n : Nat)
    (sels : Nat → List Nat) (shuffle : List Nat) : List Questao :=
  let alive := questionario_ids.filter (fun qid => !(questoesFor st qid).isEmpty)
  let allocs := balanced_alloc (questionario_ids.map (fun qid => (questoesFor st qid).length)) n
  let out := ((alive.zip allocs).map (fun p =>
    (pickBy (questoesFor st p.1) (sels p.1)).take p.2)).flatten
  pickBy out shuffle

/-! ## Favorites and Mistake Book duplication -/

/-- `duplicar_questao_para_favoritos` (lines 569–588): copy-insert into
`Favoritos`, with no duplicate check. -/
def duplicar_questao_para_favoritos (st : Store) (questao_id : Nat) : Store × Bool :=
  let st := if (get_questionario_by_name st nomeFavoritos).isSome then st else init_db st
  match get_questionario_by_name st nomeFavoritos with
  | none => (st, false)
  | some fav =>
    match st.questoes.find? (fun q => q.id == questao_id) with
    | none => (st, false)
    | some d =>
      ({ st with
         questoes := st.questoes ++ [{ d with id := st.nextId, questionario_id := fav.id }],
         nextId := st.nextId + 1 }, true)

/-- `duplicar_questao_para_erros` (lines 590–617): copy-insert into
`Caderno de Erros`, skipped when the Mistake Book already holds a
question with the same prompt text. -/
def duplicar_questao_para_erros (st : Store) (questao_id : Nat) : Store × Bool :=
  let st := if (get_questionario_by_name st nomeCadernoErros).isSome then st else init_db st
  match get_questionario_by_name st nomeCadernoErros with
  | none => (st, false)
  | some erros =>
    match st.questoes.find? (fun q => q.id == questao_id) with
    | none => (st, false)
    | some d =>
      if (st.questoes.find? (fun q =>
          q.questionario_id == erros.id && q.texto == d.texto)).isSome then (st, false)
      else
        ({ st with
           questoes := st.questoes ++ [{ d with id := st.nextId, questionario_id := erros.id }],
           nextId := st.nextId + 1 }, true)

/-! ## Concrete instances used by counterexamples and witnesses -/

/-- A true/false question builder for concrete stores. -/
def qVF (id qid : Nat) : Questao :=
  ⟨id, qid, str "VF", str "q", [], str "V", none, none, none, none, none⟩

/-- One question, answered correctly at time 5 and then incorrectly at
time 7. -/
def stLatest : Store :=
  { Store.empty with
    questoes := [qVF 10 1]
    respostas := [⟨1, 10, true, 5⟩, ⟨1, 10, false, 7⟩]
    nextId := 12 }

/-- A questionnaire with two questions, a persisted practice progress
`(pool = [10, 11], cursor = 1)` and one recorded AnswerEvent. -/
def stProg : Store :=
  { Store.empty with
    questionarios := [⟨1, str "Q", [], str "Sem Disciplina", [10, 11], 1⟩]
    questoes := [qVF 10 1, qVF 11 1]
    respostas := [⟨1, 10, true, 3⟩]
    nextId := 12 }

/-! ## C2: `total` of the performance summary -/

/-- C2 (counterexample): in the sqlite revision's
`desempenho_questionario`, `total` is not the number of Questions owned
by the questionnaire — on a store with 1 question and 2 AnswerEvents it
returns 2. -/
theorem claim2_counterexample :
    (desempenho_questionario_sqlite stLatest 1).1 ≠ (questoesFor stLatest 1).length := by
  decide

/-- C2 (amended): in the Mongo implementation, `total` is the live
count of the questionnaire's Questions and does not depend on the
AnswerEvent history (replacing the whole `respostas` collection leaves
it unchanged). -/
theorem desempenho_total_live (st : Store) (qid : Nat) (rs : List Resposta) :
    (desempenho_questionario st qid).1 = (questoesFor st qid).length ∧
    (desempenho_questionario { st with respostas := rs } qid).1
      = (desempenho_questionario st qid).1 := by
  exact ⟨rfl, rfl⟩

/-! ## C8: the reset operation -/

/-- C8 (counterexample): `resetar_resolucoes` does not discard the
persisted `(pool, cursor)`: after a reset the stored progress is still
`([10, 11], 1)`, and a fresh-process resume returns the previously
persisted pool `[10, 11]` at cursor 1, not the fresh shuffle
`[11, 10]` at 0. -/
theorem claim8_counterexample :
    get_questionario_progress (resetar_resolucoes stProg 1) 1 ≠ (([] : List Nat), 0) ∧
    resume_progress (resetar_resolucoes stProg 1) 1 [11, 10] = ([10, 11], 1) := by
  constructor
  · decide
  · decide

/-- C8 (amended): the reset operation deletes exactly the
questionnaire's AnswerEvents and nothing else: every other collection,
the persisted `(pool, cursor)` progress, and the behaviour of a later
fresh-process resume are unchanged. -/
theorem resetar_resolucoes_effect (st : Store) (qid : Nat) (shuffled : List Nat) :
    (resetar_resolucoes st qid).questionarios = st.questionarios ∧
    (resetar_resolucoes st qid).questoes = st.questoes ∧
    (resetar_resolucoes st qid).simulados = st.simulados ∧
    (resetar_resolucoes st qid).respostas
      = st.respostas.filter (fun r => r.questionario_id != qid) ∧
    get_questionario_progress (resetar_resolucoes st qid) qid
      = get_questionario_progress st qid ∧
    resume_progress (resetar_resolucoes st qid) qid shuffled
      = resume_progress st qid shuffled := by
  exact ⟨rfl, rfl, rfl, rfl, rfl, rfl⟩

/-! ## C7: the exam pool is frozen at creation -/

/-- Updating records in place through a `pool_ids`- and id-preserving
map leaves the looked-up pool unchanged. -/
theorem find_map_pool_eq (f : Simulado → Simulado) (hid : ∀ s, (f s).id = s.id)
    (hp : ∀ s, (f s).pool_ids = s.pool_ids) (l : List Simulado) (sid : Nat) :
    ((l.map f).find? (fun s => s.id == sid)).map (fun s => s.pool_ids)
      = (l.find? (fun s => s.id == sid)).map (fun s => s.pool_ids) := by
  induction l with
  | nil => rfl
  | cons s l ih =>
    by_cases h : s.id = sid
    · have h1 : (s.id == sid) = true := by simp [h]
      have h2 : ((f s).id == sid) = true := by simp [hid, h]
      simp only [List.map_cons, List.find?_cons, h1, h2, Option.map_some', hp]
    · have h1 : (s.id == sid) = false := by simp [h]
      have h2 : ((f s).id == sid) = false := by simp [hid, h]
      simp only [List.map_cons, List.find?_cons, h1, h2]
      exact ih

/-- A successful `add_questao_mc` only appends one question; the other
collections are untouched. -/
theorem add_questao_mc_ok (st : Store) (qid : Nat) (texto : Str) (alts : List Str)
    (key expl : Str) (st' : Store)
    (h : add_questao_mc st qid texto alts key expl = .ok st') :
    st'.questionarios = st.questionarios ∧ st'.respostas = st.respostas ∧
    st'.simulados = st.simulados ∧ st'.nextId = st.nextId + 1 ∧
    ∃ q, st'.questoes = st.questoes ++ [q] := by
  simp only [add_questao_mc] at h
  split at h
  · cases h
    exact ⟨rfl, rfl, rfl, rfl, _, rfl⟩
  · split at h
    · cases h
    · split at h
      · cases h
      · cases h
        exact ⟨rfl, rfl, rfl, rfl, _, rfl⟩

/-- Each post-creation operation preserves every exam's stored
`pool_ids`. -/
theorem applySimOp_pool (st : Store) (op : SimOp) (sid : Nat) :
    (get_simulado (applySimOp st op) sid).map (fun s => s.pool_ids)
      = (get_simulado st sid).map (fun s => s.pool_ids) := by
  cases op with
  | progress a idx acertos status now =>
    exact find_map_pool_eq _ (fun s => by by_cases h : s.id = a <;> simp [h])
      (fun s => by by_cases h : s.id = a <;> simp [h]) _ _
  | resposta a b c d now =>
    exact find_map_pool_eq _ (fun s => by by_cases h : s.id = a <;> simp [h])
      (fun s => by by_cases h : s.id = a <;> simp [h]) _ _
  | rename a b now =>
    exact find_map_pool_eq _ (fun s => by by_cases h : s.id = a <;> simp [h])
      (fun s => by by_cases h : s.id = a <;> simp [h]) _ _
  | vf a b c d => rfl
  | mc a b c d e =>
    cases h : add_questao_mc st a b c d e with
    | ok st' =>
      have hs := (add_questao_mc_ok st a b c d e st' h).2.2.1
      simp only [applySimOp, h, get_simulado, hs]
    | error err => simp only [applySimOp, h]
  | delQuestionario q => rfl
  | saveResposta a b c now => rfl

/-- A whole sequence of post-creation operations preserves every
exam's stored `pool_ids`. -/
theorem applySimOps_pool (ops : List SimOp) (st : Store) (sid : Nat) :
    (get_simulado (applySimOps st ops) sid).map (fun s => s.pool_ids)
      = (get_simulado st sid).map (fun s => s.pool_ids) := by
  induction ops generalizing st with
  | nil => rfl
  | cons op ops ih =>
    show (get_simulado (applySimOps (applySimOp st op) ops) sid).map _ = _
    rw [ih, applySimOp_pool]

/-- C7: once `create_simulado` has persisted `pool_ids`, no sequence of
progress updates, answer recordings, renames, status changes, or
concurrent question additions/deletions changes it: fetching the exam
by id always returns the created ordered id sequence.  (`hfresh` says
the store does not already contain an exam under the id about to be
assigned.) -/
theorem simulado_pool_frozen (st : Store) (nome : Str) (pool_ids : List Nat) (now : Nat)
    (ops : List SimOp) (hfresh : ∀ s ∈ st.simulados, s.id ≠ st.nextId) :
    (get_simulado (applySimOps (create_simulado st nome pool_ids now).2 ops)
        (create_simulado st nome pool_ids now).1).map (fun s => s.pool_ids)
      = some pool_ids := by
  rw [applySimOps_pool]
  have hnone : st.simulados.find? (fun s => s.id == st.nextId) = none := by
    rw [List.find?_eq_none]
    intro s hs
    simp [hfresh s hs]
  simp only [create_simulado, get_simulado]
  rw [List.find?_append, hnone]
  simp

/-- C7 (witness): a concrete exam created over the empty store keeps
its pool `[5, 6]` through a progress update, an answer, a rename, a
finish, and a questionnaire deletion. -/
theorem simulado_pool_frozen_witness :
    (∀ s ∈ Store.empty.simulados, s.id ≠ Store.empty.nextId) ∧
    (get_simulado (applySimOps (create_simulado Store.empty (str "S") [5, 6] 1).2
        ([.progress 0 (some 1) (some 1) none 9,
          .resposta 0 5 true (str "A") 9,
          .rename 0 (str "N") 10,
          .progress 0 (some 2) none (some (str "finished")) 11,
          .delQuestionario 3] : List SimOp))
        (create_simulado Store.empty (str "S") [5, 6] 1).1).map (fun s => s.pool_ids)
      = some [5, 6] := by
  refine ⟨by simp [Store.empty], ?_⟩
  exact simulado_pool_frozen Store.empty (str "S") [5, 6] 1 _ (by simp [Store.empty])

/-! ## C10: Mistake Book duplication is idempotent on prompt text -/

/-- Adding a questionnaire under a fresh name makes it findable by that
name. -/
theorem get_by_name_add_self (st : Store) (nome d1 d2 : Str)
    (h : get_questionario_by_name st nome = none) :
    (get_questionario_by_name (add_questionario st nome d1 d2).2 nome).isSome := by
  unfold get_questionario_by_name add_questionario at *
  rw [List.find?_append, h]
  simp

/-- Adding a questionnaire under a different name does not change a
lookup by name. -/
theorem get_by_name_add_other (st : Store) (nome nome' d1 d2 : Str) (h : nome' ≠ nome) :
    get_questionario_by_name (add_questionario st nome' d1 d2).2 nome
      = get_questionario_by_name st nome := by
  unfold get_questionario_by_name add_questionario
  rw [List.find?_append]
  cases hf : st.questionarios.find? (fun q => q.nome == nome) <;> simp [hf, h]

/-- After `init_db`, the Mistake Book questionnaire exists. -/
theorem init_db_caderno (st : Store) :
    (get_questionario_by_name (init_db st) nomeCadernoErros).isSome := by
  unfold init_db
  by_cases h1 : (get_questionario_by_name st nomeFavoritos).isSome
  · rw [if_pos h1]
    by_cases h2 : (get_questionario_by_name st nomeCadernoErros).isSome
    · rw [if_pos h2]; exact h2
    · rw [if_neg h2]
      exact get_by_name_add_self _ _ _ _ (Option.not_isSome_iff_eq_none.mp h2)
  · rw [if_neg h1]
    have hother : get_questionario_by_name
        (add_questionario st nomeFavoritos (str "Questoes salvas como favoritas.") discSistema).2
        nomeCadernoErros = get_questionario_by_name st nomeCadernoErros :=
      get_by_name_add_other _ _ _ _ _ (by decide)
    by_cases h2 : (get_questionario_by_name st nomeCadernoErros).isSome
    · rw [if_pos (by rw [hother]; exact h2)]
      rw [hother]; exact h2
    · rw [if_neg (by rw [hother]; exact h2)]
      exact get_by_name_add_self _ _ _ _ (by rw [hother] at *; exact Option.not_isSome_iff_eq_none.mp h2)

/-- When the Mistake Book is absent, `duplicar_questao_para_erros`
first runs `init_db` and then behaves as on the initialized store. -/
theorem dup_erros_init (st : Store) (q : Nat)
    (h : get_questionario_by_name st nomeCadernoErros = none) :
    duplicar_questao_para_erros st q = duplicar_questao_para_erros (init_db st) q := by
  conv_lhs => unfold duplicar_questao_para_erros
  conv_rhs => unfold duplicar_questao_para_erros
  rw [if_neg (by rw [h]; simp), if_pos (init_db_caderno st)]

/-- C10: copying into the Mistake Book is idempotent on prompt text —
a second identical call changes nothing and returns `False`, and a call
finding an identical prompt already present changes nothing and
returns `False` — while copying into Favorites performs no duplicate
check: whenever the source question exists (and the Favorites set
exists), it returns `True` and appends one more copy. -/
theorem dup_erros_idempotent_dup_favoritos_not (st : Store) (q : Nat) :
    duplicar_questao_para_erros (duplicar_questao_para_erros st q).1 q
      = ((duplicar_questao_para_erros st q).1, false)
    ∧ (∀ er d, get_questionario_by_name st nomeCadernoErros = some er →
        st.questoes.find? (fun x => x.id == q) = some d →
        (∃ x ∈ st.questoes, x.questionario_id = er.id ∧ x.texto = d.texto) →
        duplicar_questao_para_erros st q = (st, false))
    ∧ (∀ d, st.questoes.find? (fun x => x.id == q) = some d →
        (get_questionario_by_name st nomeFavoritos).isSome →
        (duplicar_questao_para_favoritos st q).2 = true ∧
        (duplicar_questao_para_favoritos st q).1.questoes.length
          = st.questoes.length + 1) := by
  refine ⟨?_, ?_, ?_⟩
  · -- idempotence
    have main : ∀ (st0 : Store) (er : Questionario),
        get_questionario_by_name st0 nomeCadernoErros = some er →
        duplicar_questao_para_erros (duplicar_questao_para_erros st0 q).1 q
          = ((duplicar_questao_para_erros st0 q).1, false) := by
      intro st0 er hC
      cases hq : st0.questoes.find? (fun x => x.id == q) with
      | none => simp [duplicar_questao_para_erros, hC, hq]
      | some d =>
        cases hex : (st0.questoes.find? (fun x =>
            x.questionario_id == er.id && x.texto == d.texto)).isSome with
        | true => simp [duplicar_questao_para_erros, hC, hq, hex]
        | false =>
          have hq1 : List.find? (fun x => x.id == q)
              (st0.questoes ++ [{ d with id := st0.nextId, questionario_id := er.id }])
                = some d := by
            rw [List.find?_append, hq]; rfl
          have hex1 : (List.find? (fun x => x.questionario_id == er.id && x.texto == d.texto)
              (st0.questoes ++ [{ d with id := st0.nextId, questionario_id := er.id }])).isSome
                = true := by
            rw [List.find?_append]
            cases hf : List.find?
                (fun x => x.questionario_id == er.id && x.texto == d.texto) st0.questoes
            · simp
            · simp
          have hC1 : get_questionario_by_name
              { st0 with
                questoes := st0.questoes ++
                  [{ d with id := st0.nextId, questionario_id := er.id }],
                nextId := st0.nextId + 1 } nomeCadernoErros = some er := hC
          simp [duplicar_questao_para_erros, hC, hq, hex, hq1, hex1, hC1]
    cases hC : get_questionario_by_name st nomeCadernoErros with
    | some er => exact main st er hC
    | none =>
      rw [dup_erros_init st q hC]
      obtain ⟨er, hC'⟩ := Option.isSome_iff_exists.mp (init_db_caderno st)
      exact main (init_db st) er hC'
  · -- already present: nothing inserted
    intro er d hC hq hex
    have hexS : (st.questoes.find? (fun x =>
        x.questionario_id == er.id && x.texto == d.texto)).isSome = true := by
      rw [List.find?_isSome]
      obtain ⟨x, hx, h1, h2⟩ := hex
      exact ⟨x, hx, by simp [h1, h2]⟩
    simp [duplicar_questao_para_erros, hC, hq, hexS]
  · -- Favorites: no duplicate check
    intro d hq hFav
    obtain ⟨fav, hfav⟩ := Option.isSome_iff_exists.mp hFav
    constructor
    · simp [duplicar_questao_para_favoritos, hfav, hq]
    · simp [duplicar_questao_para_favoritos, hfav, hq]

/-- A store holding both reserved questionnaires and one source
question (id 10) in an ordinary questionnaire (id 5). -/
def stDup : Store :=
  { Store.empty with
    questionarios := [⟨0, nomeFavoritos, [], discSistema, [], 0⟩,
                      ⟨1, nomeCadernoErros, [], discSistema, [], 0⟩,
                      ⟨5, str "Math", [], str "Math", [], 0⟩]
    questoes := [qVF 10 5]
    nextId := 11 }

/-- C10 (witness): on `stDup`, duplicating question 10 into the Mistake
Book twice leaves the second call a no-op returning `False`, while
Favorites duplication returns `True` and appends. -/
theorem dup_erros_idempotent_witness :
    stDup.questoes.find? (fun x => x.id == 10) = some (qVF 10 5) ∧
    (get_questionario_by_name stDup nomeFavoritos).isSome = true ∧
    (duplicar_questao_para_favoritos stDup 10).2 = true ∧
    (duplicar_questao_para_favoritos stDup 10).1.questoes.length
      = stDup.questoes.length + 1 ∧
    duplicar_questao_para_erros (duplicar_questao_para_erros stDup 10).1 10
      = ((duplicar_questao_para_erros stDup 10).1, false) := by
  refine ⟨by decide, by decide, ?_, ?_, ?_⟩
  · exact ((dup_erros_idempotent_dup_favoritos_not stDup 10).2.2 (qVF 10 5)
      (by decide) (by decide)).1
  · exact ((dup_erros_idempotent_dup_favoritos_not stDup 10).2.2 (qVF 10 5)
      (by decide) (by decide)).2
  · exact (dup_erros_idempotent_dup_favoritos_not stDup 10).1

/-! ## C9: the reserved questionnaires and exam assembly -/

/-- A store whose only questionnaire is the Mistake Book, holding one
question. -/
def stC9 : Store :=
  { Store.empty with
    questionarios := [⟨1, nomeCadernoErros, [], discSistema, [], 0⟩]
    questoes := [qVF 10 1]
    nextId := 11 }

/-- C9 (counterexample): in the direct ("Por questionário") exam mode
only `Favoritos` is filtered out, so the Mistake Book is offered as a
source, and an assembled direct-mode pool can contain its question. -/
theorem claim9_counterexample :
    nomeCadernoErros ∈ (simulado_options_direct stC9).map (fun q => q.nome) ∧
    (∃ qc ∈ stC9.questionarios, qc.nome = nomeCadernoErros ∧
      ∃ qq ∈ get_random_questoes stC9 [1] 1 [0], qq.questionario_id = qc.id) := by
  constructor
  · decide
  · decide

/-- Everything picked by a selector was in the underlying list. -/
theorem mem_pickBy {l : List Questao} {idxs : List Nat} {x : Questao}
    (h : x ∈ pickBy l idxs) : x ∈ l := by
  unfold pickBy at h
  obtain ⟨i, _, hget⟩ := List.mem_filterMap.mp h
  exact List.get?_mem hget

/-- Every question of a balanced pool is owned by one of the source
questionnaires. -/
theorem balanced_pool_sources (st : Store) (qids : List Nat) (n : Nat)
    (sels : Nat → List Nat) (shuffle : List Nat) (qq : Questao)
    (h : qq ∈ balanced_pool st qids n sels shuffle) :
    qq.questionario_id ∈ qids := by
  unfold balanced_pool at h
  have h1 := mem_pickBy h
  obtain ⟨chunk, hchunk, hqq⟩ := List.mem_flatten.mp h1
  obtain ⟨p, hp, rfl⟩ := List.mem_map.mp hchunk
  have h2 : qq ∈ pickBy (questoesFor st p.1) (sels p.1) := List.mem_of_mem_take hqq
  have h3 : qq ∈ questoesFor st p.1 := mem_pickBy h2
  have h4 : qq.questionario_id = p.1 := by
    have := List.of_mem_filter h3
    simpa using this
  have h5 : p.1 ∈ qids.filter (fun qid => !(questoesFor st qid).isEmpty) :=
    (List.of_mem_zip hp).1
  rw [h4]
  exact List.mem_of_mem_filter h5

/-- C9 (amended): `Favoritos` is excluded from both exam-assembly
modes; the Mistake Book is excluded from the balanced (per-discipline)
mode — because the discipline chooser drops the system discipline and
both reserved questionnaires carry it — but not from the direct mode.
No balanced-mode pool contains a question of a questionnaire named
`Favoritos` or carrying the system discipline. -/
theorem simulado_reserved_exclusion (st : Store) :
    (∀ q ∈ simulado_options_direct st, q.nome ≠ nomeFavoritos)
    ∧ (∀ (sel : List Str), ∀ q ∈ get_questionarios_por_disciplina st sel,
        q ∈ st.questionarios ∧ q.nome ≠ nomeFavoritos ∧
        (if q.disciplina = [] then str "Sem Disciplina" else q.disciplina) ∈ sel)
    ∧ (∀ (sel : List Str) (n : Nat) (sels : Nat → List Nat) (shuffle : List Nat),
        discSistema ∉ sel →
        (st.questionarios.map (fun x => x.id)).Nodup →
        ∀ qc ∈ st.questionarios,
          (qc.nome = nomeFavoritos ∨ qc.disciplina = discSistema) →
          ∀ qq ∈ balanced_pool st
              ((get_questionarios_por_disciplina st sel).map (fun x => x.id)) n sels shuffle,
            qq.questionario_id ≠ qc.id) := by
  refine ⟨?_, ?_, ?_⟩
  · intro q hq
    have := List.of_mem_filter hq
    simpa using this
  · intro sel q hq
    unfold get_questionarios_por_disciplina at hq
    split at hq
    · cases hq
    · refine ⟨List.mem_of_mem_filter hq, ?_⟩
      have := List.of_mem_filter hq
      simp only [Bool.and_eq_true, bne_iff_ne, ne_eq] at this
      exact ⟨this.1, List.mem_of_elem_eq_true this.2⟩
  · intro sel n sels shuffle hsel hnodup qc hqc hqcname qq hqq heq
    have hmem := balanced_pool_sources st _ n sels shuffle qq hqq
    obtain ⟨qr, hqr, hqrid⟩ := List.mem_map.mp hmem
    have hqrprops : qr ∈ st.questionarios ∧ qr.nome ≠ nomeFavoritos ∧
        (if qr.disciplina = [] then str "Sem Disciplina" else qr.disciplina) ∈ sel := by
      unfold get_questionarios_por_disciplina at hqr
      split at hqr
      · cases hqr
      · refine ⟨List.mem_of_mem_filter hqr, ?_⟩
        have := List.of_mem_filter hqr
        simp only [Bool.and_eq_true, bne_iff_ne, ne_eq] at this
        exact ⟨this.1, List.mem_of_elem_eq_true this.2⟩
    have hqreq : qr = qc := by
      have hinj := List.inj_on_of_nodup_map hnodup
      exact hinj hqrprops.1 hqc (by rw [hqrid, heq])
    cases hqcname with
    | inl hfav => exact hqrprops.2.1 (hqreq ▸ hfav)
    | inr hdisc =>
      have : (if qr.disciplina = [] then str "Sem Disciplina" else qr.disciplina) ∈ sel :=
        hqrprops.2.2
      rw [hqreq, hdisc] at this
      have hne : discSistema ≠ ([] : Str) := by decide
      rw [if_neg hne] at this
      exact hsel this

/-- C9 (witness): on a store with the two reserved sets and a `Math`
questionnaire, a balanced pool assembled for the `Math` discipline
draws nothing from the Mistake Book or Favorites. -/
theorem simulado_reserved_exclusion_witness :
    (discSistema ∉ [str "Math"]) ∧
    ((stDup.questionarios.map (fun x => x.id)).Nodup) ∧
    (⟨1, nomeCadernoErros, [], discSistema, [], 0⟩ : Questionario) ∈ stDup.questionarios ∧
    qVF 10 5 ∈ balanced_pool stDup
      ((get_questionarios_por_disciplina stDup [str "Math"]).map (fun x => x.id)) 1
      (fun _ => [0]) [0] ∧
    (qVF 10 5).questionario_id ≠ 1 := by
  refine ⟨by decide, by decide, by decide, by decide, ?_⟩
  exact (simulado_reserved_exclusion stDup).2.2 [str "Math"] 1 (fun _ => [0]) [0]
    (by decide) (by decide) (⟨1, nomeCadernoErros, [], discSistema, [], 0⟩ : Questionario)
    (by decide) (Or.inr (by decide)) (qVF 10 5) (by decide)

/-! ## C1 (counterexample part): the sqlite summary is not latest-wins -/

/-- C1 (counterexample): the sqlite revision's `desempenho_questionario`
counts every correct AnswerEvent; on a question answered correctly and
then incorrectly it reports 1 correct, while the number of questions
whose chronologically last event is correct is 0. -/
theorem claim1_counterexample :
    (desempenho_questionario_sqlite stLatest 1).2
      ≠ spec_correct (stLatest.respostas.filter (fun r => r.questionario_id == 1)) := by
  decide

/-! ## C5: row-level atomicity of the CSV import -/

/-- A full CSV header. -/
def hdrFull : List Str :=
  [str "tipo", str "questionario", str "texto", str "correta",
   str "explicacao", str "alternativas", str "disciplina"]

/-- An MC row with a fresh questionnaire name and only one option. -/
def rowBadMC : Row := ⟨str "MC", str "Novo", str "t", str "A", [], str "x", []⟩

/-- C5 (counterexample): importing a single malformed MC row (one
option) over the empty store records the row error and creates no
Question — but the store is changed all the same: the row's fresh
questionnaire `Novo` was created before validation and survives. -/
theorem claim5_counterexample :
    ∃ st' ok errs, import_csv_to_db hdrFull [rowBadMC] Store.empty = .ok (st', ok, errs) ∧
      ok = 0 ∧ errs.length = 1 ∧ st'.questoes = [] ∧
      st' ≠ Store.empty ∧ st'.questionarios.length = 1 := by
  refine ⟨_, _, _, rfl, ?_, ?_, ?_, ?_, ?_⟩ <;> decide

/-- `ensure_questionario` touches nothing but (possibly) appending one
questionnaire. -/
theorem ensure_questionario_spec (st : Store) (nome disc : Str) :
    (ensure_questionario st nome disc).2.questoes = st.questoes ∧
    (ensure_questionario st nome disc).2.respostas = st.respostas ∧
    (ensure_questionario st nome disc).2.simulados = st.simulados ∧
    ((ensure_questionario st nome disc).2.questionarios = st.questionarios ∨
      ∃ qn, (ensure_questionario st nome disc).2.questionarios = st.questionarios ++ [qn]) := by
  simp only [ensure_questionario]
  split
  · exact ⟨rfl, rfl, rfl, Or.inl rfl⟩
  · exact ⟨rfl, rfl, rfl, Or.inr ⟨_, rfl⟩⟩

/-- C5 (amended): a failing CSV row creates no Question and touches no
AnswerEvent or Exam, but it is not fully atomic: the questionnaire
resolved by `ensure_questionario` before validation may have been
created and is kept (at most one appended questionnaire). -/
theorem processRow_fail_partial_effect (st : Store) (row : Row) (st' : Store) (e : Str)
    (h : processRow st row = (st', some e)) :
    st'.questoes = st.questoes ∧
    st'.respostas = st.respostas ∧
    st'.simulados = st.simulados ∧
    (st'.questionarios = st.questionarios ∨
      ∃ qn, st'.questionarios = st.questionarios ++ [qn]) := by
  simp only [processRow] at h
  split at h
  · -- empty prompt: store untouched
    cases h
    exact ⟨rfl, rfl, rfl, Or.inl rfl⟩
  · split at h
    · -- VF rows always succeed
      simp at h
    · split at h
      · -- MC row
        split at h
        · -- fewer than 2 options: raise after ensure_questionario
          cases h
          exact ensure_questionario_spec st _ _
        · -- resolution: a raise inside add_questao_mc keeps the ensured store
          split at h
          · simp at h
          · cases h
            exact ensure_questionario_spec st _ _
      · -- unknown type: raise after ensure_questionario
        cases h
        exact ensure_questionario_spec st _ _

/-- C5 (witness): the malformed row `rowBadMC` fails with the
two-options error and leaves the question collection empty. -/
theorem processRow_fail_partial_witness :
    (processRow Store.empty rowBadMC).2
      = some (str "Questao MC requer ao menos 2 alternativas.") ∧
    (processRow Store.empty rowBadMC).1.questoes = Store.empty.questoes := by
  have h : processRow Store.empty rowBadMC
      = ((processRow Store.empty rowBadMC).1,
         some (str "Questao MC requer ao menos 2 alternativas.")) := by decide
  exact ⟨by rw [h], (processRow_fail_partial_effect Store.empty rowBadMC _ _ h).1⟩

/-! ## C6: multiple-choice answer-key resolution -/

/-- Lowercasing after uppercasing is plain lowercasing. -/
theorem charLower_charUpper (c : Nat) : charLower (charUpper c) = charLower c := by
  unfold charUpper charLower
  split_ifs <;> omega

/-- Uppercasing does not create or destroy whitespace. -/
theorem isWS_charUpper (c : Nat) : isWS (charUpper c) = isWS c := by
  unfold charUpper isWS
  split_ifs with h
  · rw [decide_eq_decide]
    omega
  · rfl

/-- `dropWhile` is idempotent. -/
theorem dropWhile_idem {α : Type} (p : α → Bool) (l : List α) :
    (l.dropWhile p).dropWhile p = l.dropWhile p := by
  induction l with
  | nil => rfl
  | cons a t ih => cases h : p a <;> simp [List.dropWhile_cons, h, ih]

/-- The head surviving a `dropWhile` does not satisfy the predicate. -/
theorem head_dropWhile_false {α : Type} (p : α → Bool) (l : List α) (a : α)
    (h : (l.dropWhile p).head? = some a) : p a = false := by
  induction l with
  | nil => cases h
  | cons b t ih =>
    by_cases hb : p b
    · rw [List.dropWhile_cons, if_pos hb] at h
      exact ih h
    · rw [List.dropWhile_cons, if_neg hb] at h
      cases h
      exact Bool.of_not_eq_true hb

/-- A non-trivial `dropWhile` keeps the last element. -/
theorem getLast?_dropWhile {α : Type} (p : α → Bool) (l : List α)
    (h : l.dropWhile p ≠ []) : (l.dropWhile p).getLast? = l.getLast? := by
  induction l with
  | nil => exact absurd rfl h
  | cons a t ih =>
    by_cases ha : p a
    · rw [List.dropWhile_cons, if_pos ha] at h ⊢
      have ht : t ≠ [] := by
        intro he
        rw [he] at h
        exact h rfl
      cases t with
      | nil => exact absurd rfl ht
      | cons b u => rw [ih h, List.getLast?_cons_cons]
    · rw [List.dropWhile_cons, if_neg ha]

/-- If the head does not satisfy the predicate, `dropWhile` is the
identity. -/
theorem dropWhile_eq_self_of_head {α : Type} (p : α → Bool) (l : List α)
    (h : ∀ a ∈ l.head?, p a = false) : l.dropWhile p = l := by
  cases l with
  | nil => rfl
  | cons a t =>
    rw [List.dropWhile_cons, if_neg]
    rw [h a rfl]
    exact Bool.false_ne_true

/-- A trimmed string does not start with whitespace. -/
theorem strTrim_head (s : Str) (a : Nat) (h : (strTrim s).head? = some a) :
    isWS a = false := by
  unfold strTrim at h
  rw [List.head?_reverse] at h
  have hne : (s.dropWhile isWS).reverse.dropWhile isWS ≠ [] := by
    intro he
    rw [he] at h
    cases h
  rw [getLast?_dropWhile _ _ hne, List.getLast?_reverse] at h
  exact head_dropWhile_false _ _ _ h

/-- A trimmed string does not end with whitespace. -/
theorem strTrim_getLast (s : Str) (a : Nat) (h : (strTrim s).getLast? = some a) :
    isWS a = false := by
  unfold strTrim at h
  rw [List.getLast?_reverse] at h
  exact head_dropWhile_false _ _ _ h

/-- `strip` is idempotent. -/
theorem strTrim_strTrim (s : Str) : strTrim (strTrim s) = strTrim s := by
  have h1 : (strTrim s).dropWhile isWS = strTrim s :=
    dropWhile_eq_self_of_head _ _ (fun a ha => strTrim_head s a ha)
  have h2 : (strTrim s).reverse.dropWhile isWS = (strTrim s).reverse :=
    dropWhile_eq_self_of_head _ _ (fun a ha => by
      rw [List.head?_reverse] at ha
      exact strTrim_getLast s a ha)
  show ((((strTrim s).dropWhile isWS).reverse).dropWhile isWS).reverse = strTrim s
  rw [h1, h2, List.reverse_reverse]

/-- `strip` and `upper` commute. -/
theorem strTrim_strUpper (s : Str) : strTrim (strUpper s) = strUpper (strTrim s) := by
  have hpf : (isWS ∘ charUpper) = isWS := funext isWS_charUpper
  unfold strTrim strUpper
  rw [List.dropWhile_map, hpf, ← List.map_reverse, List.dropWhile_map, hpf, ← List.map_reverse]

/-- `lower` after `upper` equals plain `lower`. -/
theorem strLower_strUpper (s : Str) : strLower (strUpper s) = strLower s := by
  unfold strLower strUpper
  rw [List.map_map]
  exact List.map_congr_left (fun a _ => charLower_charUpper a)

/-- The normalized form the source compares option texts against is
exactly the case-insensitive normal form of the raw key. -/
theorem key_bridge (key : Str) :
    strLower (strTrim (strTrim (strUpper key))) = strLower (strTrim key) := by
  rw [strTrim_strUpper, strTrim_strUpper, strTrim_strTrim, strLower_strUpper]

/-- A successful `findIdx?` exhibits a satisfying element. -/
theorem exists_of_findIdx? {α : Type} {p : α → Bool} :
    ∀ {l : List α} {j i : Nat}, l.findIdx? p j = some i → ∃ a ∈ l, p a = true := by
  intro l
  induction l with
  | nil => intro j i h; cases h
  | cons a t ih =>
    intro j i h
    rw [List.findIdx?_cons] at h
    by_cases ha : p a
    · exact ⟨a, List.mem_cons_self a t, ha⟩
    · rw [if_neg ha] at h
      obtain ⟨b, hb, hpb⟩ := ih h
      exact ⟨b, List.mem_cons_of_mem a hb, hpb⟩

/-- Specification-side resolution rule for a multiple-choice answer
key (spec §3): a direct match with one of the letters assigned to the
present options, else an exact case-insensitive match with one of the
option texts. -/
def mcResolvesSpec (alternativas : List Str) (key : Str) : Prop :=
  strTrim (strUpper key) ∈ letras_validas alternativas.length
  ∨ ∃ alt ∈ alternativas, strLower (strTrim alt) = strLower (strTrim key)

/-- C6: `add_questao_mc` persists the question only when the supplied
answer key resolves — a direct letter match against the letters A..E of
the present options, else an exact case-insensitive text match — and
appends exactly one question then; when resolution fails it raises a
validation error (and, returning `Except.error`, persists nothing). -/
theorem add_questao_mc_resolution (st : Store) (qid : Nat) (texto : Str)
    (alts : List Str) (key expl : Str) :
    (∀ st', add_questao_mc st qid texto alts key expl = .ok st' →
      mcResolvesSpec alts key ∧ ∃ qn, st'.questoes = st.questoes ++ [qn])
    ∧ (¬ mcResolvesSpec alts key →
      ∃ e, add_questao_mc st qid texto alts key expl = .error e) := by
  constructor
  · intro st' h
    refine ⟨?_, (add_questao_mc_ok st qid texto alts key expl st' h).2.2.2.2⟩
    simp only [add_questao_mc] at h
    split at h
    · next hc => exact Or.inl (List.mem_of_elem_eq_true hc)
    · next hc =>
      split at h
      · cases h
      · next idx hidx =>
        split at h
        · cases h
        · obtain ⟨alt, halt, hp⟩ := exists_of_findIdx? hidx
          simp only [Bool.and_eq_true, beq_iff_eq] at hp
          refine Or.inr ⟨alt, halt, ?_⟩
          rw [hp.2, key_bridge]
  · intro hnr
    simp only [add_questao_mc]
    split
    · next hc => exact absurd (Or.inl (List.mem_of_elem_eq_true hc)) hnr
    · next hc =>
      split
      · exact ⟨_, rfl⟩
      · next idx hidx =>
        obtain ⟨alt, halt, hp⟩ := exists_of_findIdx? hidx
        simp only [Bool.and_eq_true, beq_iff_eq] at hp
        exact absurd (Or.inr ⟨alt, halt, by rw [hp.2, key_bridge]⟩) hnr

/-- C6 (witness): with options `Rome`/`Paris`, the key `paris` resolves
case-insensitively, while `Berlin` fails and raises without
persisting. -/
theorem add_questao_mc_resolution_witness :
    ¬ mcResolvesSpec [str "Rome", str "Paris"] (str "Berlin") ∧
    mcResolvesSpec [str "Rome", str "Paris"] (str "paris") ∧
    ∃ e, add_questao_mc Store.empty 1 (str "q") [str "Rome", str "Paris"] (str "Berlin") []
        = .error e := by
  refine ⟨?_, ?_, ?_⟩
  · unfold mcResolvesSpec
    decide
  · unfold mcResolvesSpec
    decide
  · exact (add_questao_mc_resolution Store.empty 1 (str "q") [str "Rome", str "Paris"]
      (str "Berlin") []).2 (by unfold mcResolvesSpec; decide)

/-! ## C4: header abort and row isolation of the CSV import -/

/-- One successful step of the row loop. -/
theorem import_rows_step_ok {st st' : Store} {row : Row} (rest : List Row)
    (i ok : Nat) (errs : List (Nat × Str)) (hpr : processRow st row = (st', none)) :
    import_rows st (row :: rest) i ok errs
      = import_rows st' rest (i + 1) (ok + 1) errs := by
  simp only [import_rows, hpr]

/-- One failing step of the row loop: the error is recorded with the
current row number and the loop continues. -/
theorem import_rows_step_err {st st' : Store} {row : Row} {e : Str} (rest : List Row)
    (i ok : Nat) (errs : List (Nat × Str)) (hpr : processRow st row = (st', some e)) :
    import_rows st (row :: rest) i ok errs
      = import_rows st' rest (i + 1) ok (errs ++ [(i, e)]) := by
  simp only [import_rows, hpr]

/-- Each row contributes to exactly one of the success count and the
error list. -/
theorem import_rows_count : ∀ (rows : List Row) (st : Store) (i ok : Nat)
    (errs : List (Nat × Str)),
    (import_rows st rows i ok errs).2.1 + (import_rows st rows i ok errs).2.2.length
      = ok + errs.length + rows.length := by
  intro rows
  induction rows with
  | nil => intro st i ok errs; rfl
  | cons row rest ih =>
    intro st i ok errs
    cases hpr : processRow st row with
    | mk st' oe =>
      cases oe with
      | none =>
        rw [import_rows_step_ok rest i ok errs hpr, ih]
        simp only [List.length_cons]
        omega
      | some e =>
        rw [import_rows_step_err rest i ok errs hpr, ih]
        simp only [List.length_append, List.length_cons, List.length_nil]
        omega

/-- The row loop appends its errors after the incoming ones, with
strictly increasing row numbers lying in the processed range. -/
theorem import_rows_errs : ∀ (rows : List Row) (st : Store) (i ok : Nat)
    (errs : List (Nat × Str)),
    ∃ δ, (import_rows st rows i ok errs).2.2 = errs ++ δ
      ∧ (∀ x ∈ δ, i ≤ x.1 ∧ x.1 < i + rows.length)
      ∧ δ.Pairwise (fun a b => a.1 < b.1) := by
  intro rows
  induction rows with
  | nil =>
    intro st i ok errs
    exact ⟨[], by simp [import_rows], by simp, List.Pairwise.nil⟩
  | cons row rest ih =>
    intro st i ok errs
    cases hpr : processRow st row with
    | mk st' oe =>
      cases oe with
      | none =>
        obtain ⟨δ, h1, h2, h3⟩ := ih st' (i + 1) (ok + 1) errs
        refine ⟨δ, ?_, ?_, h3⟩
        · rw [import_rows_step_ok rest i ok errs hpr]
          exact h1
        · intro x hx
          have := h2 x hx
          simp only [List.length_cons]
          omega
      | some e =>
        obtain ⟨δ, h1, h2, h3⟩ := ih st' (i + 1) ok (errs ++ [(i, e)])
        refine ⟨(i, e) :: δ, ?_, ?_, ?_⟩
        · rw [import_rows_step_err rest i ok errs hpr, h1, List.append_assoc]
          rfl
        · intro x hx
          rcases List.mem_cons.mp hx with hx | hx
          · subst hx
            simp only [List.length_cons]
            omega
          · have := h2 x hx
            simp only [List.length_cons]
            omega
        · rw [List.pairwise_cons]
          exact ⟨fun x hx => by have := (h2 x hx).1; omega, h3⟩

/-- The row loop over a concatenation runs the two parts in sequence,
threading the store, the counter and the error list. -/
theorem import_rows_append : ∀ (l1 l2 : List Row) (st : Store) (i ok : Nat)
    (errs : List (Nat × Str)),
    import_rows st (l1 ++ l2) i ok errs
      = import_rows (import_rows st l1 i ok errs).1 l2 (i + l1.length)
          (import_rows st l1 i ok errs).2.1 (import_rows st l1 i ok errs).2.2 := by
  intro l1
  induction l1 with
  | nil => intro l2 st i ok errs; rfl
  | cons row rest ih =>
    intro l2 st i ok errs
    have hlen : i + (row :: rest).length = (i + 1) + rest.length := by
      simp only [List.length_cons]
      omega
    cases hpr : processRow st row with
    | mk st' oe =>
      cases oe with
      | none =>
        rw [List.cons_append, import_rows_step_ok (rest ++ l2) i ok errs hpr,
          import_rows_step_ok rest i ok errs hpr, hlen]
        exact ih l2 st' (i + 1) (ok + 1) errs
      | some e =>
        rw [List.cons_append, import_rows_step_err (rest ++ l2) i ok errs hpr,
          import_rows_step_err rest i ok errs hpr, hlen]
        exact ih l2 st' (i + 1) ok (errs ++ [(i, e)])

/-- C4: the CSV import aborts as a whole exactly when a required header
column (type, questionnaire name, prompt text, answer key) is missing;
otherwise it returns `(successCount, orderedRowErrors)`: every row
contributes to exactly one of the two, the recorded row numbers are
strictly increasing and 1-indexed counting the header as row 1 (data
rows start at 2), and `(j + 2, message)` is recorded precisely when
processing row `j` against the store reached at that point raises that
message — processing always continues to the next row. -/
theorem import_csv_row_isolation (header : List Str) (rows : List Row) (st : Store) :
    ((∃ out, import_csv_to_db header rows st = .ok out) ↔ ∀ c ∈ requiredCols, c ∈ header)
    ∧ (∀ st' okc errs, import_csv_to_db header rows st = .ok (st', okc, errs) →
        okc + errs.length = rows.length
        ∧ errs.Pairwise (fun a b => a.1 < b.1)
        ∧ (∀ x ∈ errs, 2 ≤ x.1 ∧ x.1 < rows.length + 2)
        ∧ (∀ j (hj : j < rows.length) (e : Str),
            ((j + 2, e) ∈ errs ↔
              (processRow (import_rows st (rows.take j) 2 0 []).1
                  (rows.get ⟨j, hj⟩)).2 = some e))) := by
  constructor
  · by_cases hm : requiredCols.filter (fun r => !header.contains r) = []
    · have hok : import_csv_to_db header rows st = .ok (import_rows st rows 2 0 []) := by
        simp only [import_csv_to_db]
        rw [if_pos hm]
      constructor
      · intro _ c hc
        by_contra hnc
        have hcf : header.contains c = false := by
          cases hcc : header.contains c
          · rfl
          · exact absurd (List.mem_of_elem_eq_true hcc) hnc
        have : c ∈ requiredCols.filter (fun r => !header.contains r) :=
          List.mem_filter.mpr ⟨hc, by rw [hcf]; rfl⟩
        rw [hm] at this
        cases this
      · intro _
        exact ⟨_, hok⟩
    · have herr : import_csv_to_db header rows st
          = .error (str "CSV sem colunas obrigatorias") := by
        simp only [import_csv_to_db]
        rw [if_neg hm]
      constructor
      · intro h
        obtain ⟨out, hout⟩ := h
        rw [herr] at hout
        cases hout
      · intro hall
        exfalso
        apply hm
        rw [List.filter_eq_nil_iff]
        intro c hc
        have hct : header.contains c = true := List.elem_eq_true_of_mem (hall c hc)
        simp [hct]
        exact hall c hc
  · intro st' okc errs hok'
    by_cases hm : requiredCols.filter (fun r => !header.contains r) = []
    · have hok : import_csv_to_db header rows st = .ok (import_rows st rows 2 0 []) := by
        simp only [import_csv_to_db]
        rw [if_pos hm]
      rw [hok] at hok'
      have heq : import_rows st rows 2 0 [] = (st', okc, errs) := Except.ok.inj hok'
      have herrs0 : errs = (import_rows st rows 2 0 []).2.2 := by rw [heq]
      have hokc0 : okc = (import_rows st rows 2 0 []).2.1 := by rw [heq]
      refine ⟨?_, ?_, ?_, ?_⟩
      · have := import_rows_count rows st 2 0 []
        rw [herrs0, hokc0]
        simpa using this
      · obtain ⟨δ, h1, _, h3⟩ := import_rows_errs rows st 2 0 []
        simp only [List.nil_append] at h1
        rw [herrs0, h1]
        exact h3
      · obtain ⟨δ, h1, h2, _⟩ := import_rows_errs rows st 2 0 []
        simp only [List.nil_append] at h1
        rw [herrs0, h1]
        intro x hx
        have := h2 x hx
        omega
      · intro j hj e
        have hsplit : rows = rows.take j ++ (rows.get ⟨j, hj⟩ :: rows.drop (j + 1)) := by
          conv_lhs => rw [← List.take_append_drop j rows]
          rw [List.drop_eq_getElem_cons hj]
          rfl
        have hlen : (rows.take j).length = j := by
          rw [List.length_take]
          omega
        have hrun : import_rows st rows 2 0 []
            = import_rows (import_rows st (rows.take j) 2 0 []).1
                (rows.get ⟨j, hj⟩ :: rows.drop (j + 1)) (2 + j)
                (import_rows st (rows.take j) 2 0 []).2.1
                (import_rows st (rows.take j) 2 0 []).2.2 := by
          conv_lhs => rw [hsplit]
          rw [import_rows_append, hlen]
        obtain ⟨δ1, hδ1, hb1, _⟩ := import_rows_errs (rows.take j) st 2 0 []
        simp only [List.nil_append] at hδ1
        rw [hlen] at hb1
        cases hpr : processRow (import_rows st (rows.take j) 2 0 []).1
            (rows.get ⟨j, hj⟩) with
        | mk st2 oe =>
          cases oe with
          | none =>
            obtain ⟨δ2, hδ2, hb2, _⟩ :=
              import_rows_errs (rows.drop (j + 1)) st2 (2 + j + 1)
                ((import_rows st (rows.take j) 2 0 []).2.1 + 1)
                (import_rows st (rows.take j) 2 0 []).2.2
            have herrs : errs = (import_rows st (rows.take j) 2 0 []).2.2 ++ δ2 := by
              rw [herrs0, hrun,
                import_rows_step_ok (rows.drop (j + 1)) (2 + j) _ _ hpr]
              exact hδ2
            constructor
            · intro hmem
              exfalso
              rw [herrs, hδ1] at hmem
              rcases List.mem_append.mp hmem with hmem | hmem
              · have := (hb1 _ hmem).2
                simp only at this
                omega
              · have := (hb2 _ hmem).1
                simp only at this
                omega
            · intro hsome
              simp at hsome
          | some e' =>
            obtain ⟨δ2, hδ2, hb2, _⟩ :=
              import_rows_errs (rows.drop (j + 1)) st2 (2 + j + 1)
                (import_rows st (rows.take j) 2 0 []).2.1
                ((import_rows st (rows.take j) 2 0 []).2.2 ++ [(2 + j, e')])
            have herrs : errs
                = (import_rows st (rows.take j) 2 0 []).2.2 ++ ((2 + j, e') :: δ2) := by
              rw [herrs0, hrun,
                import_rows_step_err (rows.drop (j + 1)) (2 + j) _ _ hpr,
                hδ2, List.append_assoc]
              rfl
            constructor
            · intro hmem
              rw [herrs, hδ1] at hmem
              rcases List.mem_append.mp hmem with hmem | hmem
              · exfalso
                have := (hb1 _ hmem).2
                simp only at this
                omega
              · rcases List.mem_cons.mp hmem with hmem | hmem
                · have hb : e = e' := (Prod.ext_iff.mp hmem).2
                  rw [hb]
                · exfalso
                  have := (hb2 _ hmem).1
                  simp only at this
                  omega
            · intro hsome
              have he : e' = e := Option.some.inj hsome
              rw [herrs]
              refine List.mem_append.mpr (Or.inr (List.mem_cons.mpr (Or.inl ?_)))
              rw [he]
              have hji : j + 2 = 2 + j := by omega
              rw [hji]
    · have herr : import_csv_to_db header rows st
          = .error (str "CSV sem colunas obrigatorias") := by
        simp only [import_csv_to_db]
        rw [if_neg hm]
      rw [herr] at hok'
      cases hok'

/-- A valid true/false CSV row. -/
def rowVF : Row := ⟨str "VF", str "Math", str "2+2=4", str "V", [], [], []⟩

/-- A valid multiple-choice CSV row with three options. -/
def rowMC : Row := ⟨str "MC", str "Math", str "pick even", str "B", [], str "1@@2@@3", []⟩

/-- The three-row import used as a concrete witness (row 2 valid,
row 3 malformed, row 4 valid). -/
def rows3 : List Row := [rowVF, rowBadMC, rowMC]

/-- C4 (witness): on a full header and `rows3`, the import returns
instead of raising, success count and error count add up to 3, and the
malformed second data row is recorded under row number 3 (header is
row 1). -/
theorem import_csv_row_isolation_witness :
    (∃ out, import_csv_to_db hdrFull rows3 Store.empty = .ok out)
    ∧ (import_rows Store.empty rows3 2 0 []).2.1
        + (import_rows Store.empty rows3 2 0 []).2.2.length = 3
    ∧ (3, str "Questao MC requer ao menos 2 alternativas.")
        ∈ (import_rows Store.empty rows3 2 0 []).2.2 := by
  have T := import_csv_row_isolation hdrFull rows3 Store.empty
  have hok3 : import_csv_to_db hdrFull rows3 Store.empty
      = .ok (import_rows Store.empty rows3 2 0 []) := by rfl
  have happ := T.2 (import_rows Store.empty rows3 2 0 []).1
      (import_rows Store.empty rows3 2 0 []).2.1
      (import_rows Store.empty rows3 2 0 []).2.2 (by rw [hok3])
  refine ⟨T.1.mpr (by decide), ?_, ?_⟩
  · simpa using happ.1
  · exact (happ.2.2.2 1 (by decide)
      (str "Questao MC requer ao menos 2 alternativas.")).mpr (by decide)

/-! ## C3: balanced allocation fairness and the safety-break cap -/

/-- Incrementing one in-range entry adds one to the sum. -/
theorem sum_set_succ : ∀ (l : List Nat) (i : Nat), i < l.length →
    (l.set i (l.getD i 0 + 1)).sum = l.sum + 1 := by
  intro l
  induction l with
  | nil => intro i h; cases h
  | cons a t ih =>
    intro i h
    cases i with
    | zero => simp [List.sum_cons]; omega
    | succ i =>
      have := ih i (by simpa using h)
      simp only [List.set, List.getD_cons_succ, List.sum_cons, this]
      omega

/-- Incrementing any entry adds at most one to the sum. -/
theorem sum_set_le (l : List Nat) (i : Nat) :
    (l.set i (l.getD i 0 + 1)).sum ≤ l.sum + 1 := by
  by_cases h : i < l.length
  · rw [sum_set_succ l i h]
  · rw [List.set_eq_of_length_le (by omega)]
    omega

/-- The round-robin loop can add at most `fuel` units in total. -/
theorem rr_go_sum_le (counts : List Nat) : ∀ (fuel remaining i : Nat) (alloc : List Nat),
    (rr_go counts fuel remaining i alloc).sum ≤ alloc.sum + fuel := by
  intro fuel
  induction fuel with
  | zero => intro remaining i alloc; simp [rr_go]
  | succ fuel ih =>
    intro remaining i alloc
    show (rr_go counts (fuel + 1) remaining i alloc).sum ≤ alloc.sum + (fuel + 1)
    simp only [rr_go]
    split
    · omega
    · have hstep : (if alloc.getD (i % counts.length) 0 < counts.getD (i % counts.length) 0
          then alloc.set (i % counts.length) (alloc.getD (i % counts.length) 0 + 1)
          else alloc).sum ≤ alloc.sum + 1 := by
        split
        · exact sum_set_le alloc (i % counts.length)
        · omega
      split
      · omega
      · have := ih (if alloc.getD (i % counts.length) 0 < counts.getD (i % counts.length) 0
            then remaining - 1 else remaining) (i + 1)
          (if alloc.getD (i % counts.length) 0 < counts.getD (i % counts.length) 0
            then alloc.set (i % counts.length) (alloc.getD (i % counts.length) 0 + 1)
            else alloc)
        omega

/-- The allocation hands out at most the initial base shares plus
100001 remainder units — the safety break's budget. -/
theorem balanced_alloc_sum_le (counts : List Nat) (n : Nat) :
    (balanced_alloc counts n).sum
      ≤ ((counts.filter (fun c => 0 < c)).map
          (fun c => min ((min n counts.sum) / (counts.filter (fun c => 0 < c)).length) c)).sum
        + 100001 := by
  simp only [balanced_alloc, rr_loop]
  split
  · exact Nat.zero_le _
  · split
    · exact Nat.zero_le _
    · split
      · exact Nat.zero_le _
      · rw [Nat.sub_zero]
        exact rr_go_sum_le _ _ _ _ _

/-- C3 (counterexample): with 100003 questionnaires of one question
each and a request of 100002, the loop's `i > 100000` safety break
stops the remainder distribution early, so the allocations do not sum
to `min(n, totalAvailable)` although every questionnaire has
`ceil(n/k) = 1` question available. -/
theorem claim3_counterexample :
    ¬ ((balanced_alloc (List.replicate 100003 1) 100002).sum
        = min 100002 (List.replicate 100003 1).sum) := by
  intro h
  have hb := balanced_alloc_sum_le (List.replicate 100003 1) 100002
  have hfil : (List.replicate 100003 (1 : Nat)).filter (fun c => 0 < c)
      = List.replicate 100003 1 := by
    rw [List.filter_eq_self]
    intro a ha
    rw [List.eq_of_mem_replicate ha]
    decide
  have hsum : (List.replicate 100003 (1 : Nat)).sum = 100003 := by
    rw [List.sum_replicate, smul_eq_mul, Nat.mul_one]
  have hmin : min (100002 : Nat) 100003 = 100002 := by omega
  rw [hfil, hsum, hmin, List.length_replicate] at hb
  have hdiv : (100002 : Nat) / 100003 = 0 := Nat.div_eq_of_lt (by omega)
  rw [hdiv] at hb
  have hmap : (List.replicate 100003 (1 : Nat)).map (fun c => min 0 c)
      = List.replicate 100003 0 := by
    rw [List.map_replicate]
    norm_num
  have hz : (List.replicate 100003 (0 : Nat)).sum = 0 := by
    rw [List.sum_replicate, smul_eq_mul, Nat.mul_zero]
  rw [hmap, hz] at hb
  rw [hsum, hmin] at h
  omega

/-- The intended round-robin result: the first `j` questionnaires got
one extra unit on top of the base share. -/
def bumpAlloc (base k j : Nat) : List Nat :=
  List.replicate j (base + 1) ++ List.replicate (k - j) base

/-- Entries of a replicate list. -/
theorem getD_replicate_eq (a d n i : Nat) (h : i < n) :
    (List.replicate n a).getD i d = a := by
  rw [List.getD_eq_getElem _ _ (by simpa using h)]
  simp

/-- Setting right after a prefix.  -/
theorem set_after_len {α : Type} (l1 l2 : List α) (a : α) (nn : Nat)
    (h : nn = l1.length) : (l1 ++ l2).set nn a = l1 ++ l2.set 0 a := by
  subst h
  induction l1 with
  | nil => rfl
  | cons b t ih => simp [List.set, ih]

/-- Bumping the next base entry extends the bumped prefix. -/
theorem bump_set (base k j : Nat) (h : j < k) :
    (bumpAlloc base k j).set j (base + 1) = bumpAlloc base k (j + 1) := by
  unfold bumpAlloc
  have hkj : k - j = (k - (j + 1)) + 1 := by omega
  rw [hkj, List.replicate_succ]
  rw [set_after_len _ _ _ j (by simp)]
  show List.replicate j (base + 1) ++ (base + 1) :: List.replicate (k - (j + 1)) base
      = List.replicate (j + 1) (base + 1) ++ List.replicate (k - (j + 1)) base
  rw [List.replicate_succ', List.append_assoc]
  rfl

/-- The bumped-prefix entries. -/
theorem bump_getD (base k rem i : Nat) (hik : i < k) (hrk : rem ≤ k) :
    (bumpAlloc base k rem).getD i 0 = if i < rem then base + 1 else base := by
  unfold bumpAlloc
  by_cases h : i < rem
  · rw [if_pos h, List.getD_append _ _ _ _ (by simpa using h)]
    exact getD_replicate_eq _ _ _ _ h
  · rw [if_neg h, List.getD_append_right _ _ _ _ (by simpa using h)]
    rw [List.length_replicate]
    exact getD_replicate_eq _ _ _ _ (by omega)

/-- The bumped allocation's total. -/
theorem bump_sum (base k rem : Nat) (h : rem ≤ k) :
    (bumpAlloc base k rem).sum = k * base + rem := by
  unfold bumpAlloc
  rw [List.sum_append, List.sum_replicate, List.sum_replicate, smul_eq_mul, smul_eq_mul]
  have h1 : rem * (base + 1) = rem * base + rem := by ring
  have h2 : (k - rem) * base + rem * base = k * base := by
    rw [← Nat.add_mul, Nat.sub_add_cancel h]
  omega

/-- The bumped allocation's length. -/
theorem bump_length (base k rem : Nat) (h : rem ≤ k) :
    (bumpAlloc base k rem).length = k := by
  unfold bumpAlloc
  simp only [List.length_append, List.length_replicate]
  omega

/-- The round-robin loop, run with sufficient per-questionnaire
capacity and a remainder within the safety budget, bumps exactly the
first `rem` entries. -/
theorem rr_go_bump (counts : List Nat) (base rem : Nat)
    (hk : counts ≠ []) (hrem : rem < counts.length) (hcap : rem ≤ 100001)
    (hc : ∀ jj, jj < counts.length → 0 < rem → base + 1 ≤ counts.getD jj 0) :
    ∀ d j, j + d = rem →
      rr_go counts (100001 - j) d j (bumpAlloc base counts.length j)
        = bumpAlloc base counts.length rem := by
  intro d
  induction d with
  | zero =>
    intro j hj
    have hje : j = rem := by omega
    subst hje
    cases hf : 100001 - j with
    | zero => rfl
    | succ f => simp [rr_go]
  | succ d ih =>
    intro j hj
    have hrem0 : 0 < rem := by omega
    have hjr : j < rem := by omega
    have hjk : j < counts.length := by omega
    have hf : 100001 - j = (100000 - j) + 1 := by omega
    rw [hf]
    simp only [rr_go]
    rw [if_neg (by simp [hk])]
    have hmod : j % counts.length = j := Nat.mod_eq_of_lt hjk
    rw [hmod]
    have hgd : (bumpAlloc base counts.length j).getD j 0 = base := by
      unfold bumpAlloc
      rw [List.getD_append_right _ _ _ _ (by simp)]
      rw [List.length_replicate]
      exact getD_replicate_eq _ _ _ _ (by omega)
    have hhit : (bumpAlloc base counts.length j).getD j 0 < counts.getD j 0 := by
      rw [hgd]
      have := hc j hjk hrem0
      omega
    rw [if_pos hhit, if_pos hhit, hgd, bump_set base counts.length j hjk]
    by_cases hbr : 100000 < j + 1
    · rw [if_pos hbr]
      have hje : j + 1 = rem := by omega
      rw [hje]
    · rw [if_neg hbr]
      have hfe : 100000 - j = 100001 - (j + 1) := by omega
      have hde : d + 1 - 1 = d := by omega
      rw [hfe, hde]
      exact ih (j + 1) (by omega)

/-- C3 (amended): when every one of the `k ≥ 1` questionnaires has at
least `ceil(n/k)` questions available and the remainder `n mod k` does
not exceed the loop's 100001-unit safety budget (in particular whenever
`k ≤ 100002`), the computed allocation has one share per questionnaire,
never exceeds availability, all shares are within 1 of each other, and
the shares sum to `min(n, totalAvailable)` (= `n` here). -/
theorem balanced_alloc_fair (counts : List Nat) (n : Nat)
    (hk : counts ≠ []) (hn : 0 < n)
    (hceil : ∀ c ∈ counts, (n + counts.length - 1) / counts.length ≤ c)
    (hcap : n % counts.length ≤ 100001) :
    (balanced_alloc counts n).length = counts.length
    ∧ (∀ i, i < counts.length →
        (balanced_alloc counts n).getD i 0 ≤ counts.getD i 0)
    ∧ (∀ i j, i < counts.length → j < counts.length →
        (balanced_alloc counts n).getD i 0 ≤ (balanced_alloc counts n).getD j 0 + 1)
    ∧ (balanced_alloc counts n).sum = min n counts.sum := by
  have hk0 : 0 < counts.length := List.length_pos.mpr hk
  have hceil1 : 1 ≤ (n + counts.length - 1) / counts.length := by
    rw [Nat.le_div_iff_mul_le hk0]
    omega
  have hpos : ∀ c ∈ counts, 0 < c := fun c hc => lt_of_lt_of_le hceil1 (hceil c hc)
  have hdm := Nat.div_add_mod n counts.length
  have hmlt : n % counts.length < counts.length := Nat.mod_lt _ hk0
  have hbase_le : n / counts.length ≤ (n + counts.length - 1) / counts.length :=
    Nat.div_le_div_right (by omega)
  have hceil_ge : 0 < n % counts.length →
      n / counts.length + 1 ≤ (n + counts.length - 1) / counts.length := by
    intro h0
    have hmul : counts.length * (n / counts.length + 1)
        = counts.length * (n / counts.length) + counts.length := by ring
    have h1 : counts.length * (n / counts.length + 1) ≤ n + counts.length - 1 := by omega
    calc n / counts.length + 1
        = counts.length * (n / counts.length + 1) / counts.length :=
          (Nat.mul_div_cancel_left _ hk0).symm
      _ ≤ (n + counts.length - 1) / counts.length := Nat.div_le_div_right h1
  have hsumlb : counts.length * ((n + counts.length - 1) / counts.length) ≤ counts.sum := by
    have := List.card_nsmul_le_sum counts ((n + counts.length - 1) / counts.length) hceil
    rwa [smul_eq_mul] at this
  have htot : n ≤ counts.sum := by
    have h1 : n ≤ counts.length * ((n + counts.length - 1) / counts.length) := by
      rcases Nat.eq_zero_or_pos (n % counts.length) with h0 | h0
      · have hmul : counts.length * (n / counts.length)
            ≤ counts.length * ((n + counts.length - 1) / counts.length) :=
          Nat.mul_le_mul_left _ hbase_le
        omega
      · have hmul : counts.length * (n / counts.length + 1)
            ≤ counts.length * ((n + counts.length - 1) / counts.length) :=
          Nat.mul_le_mul_left _ (hceil_ge h0)
        have hmul2 : counts.length * (n / counts.length + 1)
            = counts.length * (n / counts.length) + counts.length := by ring
        omega
    omega
  have hmin : min n counts.sum = n := min_eq_left htot
  have halive : counts.filter (fun c => 0 < c) = counts :=
    List.filter_eq_self.mpr (fun a ha => by simpa using hpos a ha)
  have hmap : counts.map (fun c => min (n / counts.length) c)
      = List.replicate counts.length (n / counts.length) := by
    rw [List.map_congr_left (fun c hc => min_eq_left (le_trans hbase_le (hceil c hc))),
      List.map_const']
  have hsum0 : (List.replicate counts.length (n / counts.length)).sum
      = counts.length * (n / counts.length) := by
    rw [List.sum_replicate, smul_eq_mul]
  have hexp : balanced_alloc counts n
      = rr_go counts (100001 - 0) (n - counts.length * (n / counts.length)) 0
          (List.replicate counts.length (n / counts.length)) := by
    simp only [balanced_alloc, rr_loop]
    rw [if_neg (by omega : ¬ n = 0), if_neg (by omega : ¬ counts.sum = 0), halive,
      if_neg hk, hmin, hmap, hsum0]
  have hremeq : n - counts.length * (n / counts.length) = n % counts.length := by omega
  have hbump0 : bumpAlloc (n / counts.length) counts.length 0
      = List.replicate counts.length (n / counts.length) := by
    unfold bumpAlloc
    simp
  have hcc : ∀ jj, jj < counts.length → 0 < n % counts.length →
      n / counts.length + 1 ≤ counts.getD jj 0 := by
    intro jj hjj h0
    have hmem : counts.getD jj 0 ∈ counts := by
      rw [List.getD_eq_getElem _ _ hjj]
      exact List.getElem_mem _
    exact le_trans (hceil_ge h0) (hceil _ hmem)
  have hfinal : balanced_alloc counts n
      = bumpAlloc (n / counts.length) counts.length (n % counts.length) := by
    rw [hexp, hremeq, ← hbump0]
    exact rr_go_bump counts (n / counts.length) (n % counts.length) hk hmlt hcap hcc
      (n % counts.length) 0 (by omega)
  have hmemD : ∀ i, i < counts.length → counts.getD i 0 ∈ counts := by
    intro i hi
    rw [List.getD_eq_getElem _ _ hi]
    exact List.getElem_mem _
  refine ⟨?_, ?_, ?_, ?_⟩
  · rw [hfinal]
    exact bump_length _ _ _ (le_of_lt hmlt)
  · intro i hik
    rw [hfinal, bump_getD _ _ _ _ hik (le_of_lt hmlt)]
    split
    · next h => exact hcc i hik (by omega)
    · exact le_trans hbase_le (hceil _ (hmemD i hik))
  · intro i j hik hjk
    rw [hfinal, bump_getD _ _ _ _ hik (le_of_lt hmlt),
      bump_getD _ _ _ _ hjk (le_of_lt hmlt)]
    split_ifs <;> omega
  · rw [hfinal, bump_sum _ _ _ (le_of_lt hmlt), hmin]
    omega

/-- C3 (witness): two questionnaires of two questions each, three
requested: the allocation sums to `min 3 4 = 3`. -/
theorem balanced_alloc_fair_witness :
    (([2, 2] : List Nat) ≠ []) ∧ (0 < 3) ∧
    (∀ c ∈ ([2, 2] : List Nat),
      (3 + ([2, 2] : List Nat).length - 1) / ([2, 2] : List Nat).length ≤ c) ∧
    (3 % ([2, 2] : List Nat).length ≤ 100001) ∧
    (balanced_alloc [2, 2] 3).sum = min 3 ([2, 2] : List Nat).sum := by
  refine ⟨by decide, by decide, by decide, by decide, ?_⟩
  exact (balanced_alloc_fair [2, 2] 3 (by decide) (by decide) (by decide) (by decide)).2.2.2

/-! ## C1: the Mongo summary is latest-answer-wins -/

/-- Looking up after one dict update. -/
theorem lookup_upsert : ∀ (m : List (Nat × Bool)) (k : Nat) (v : Bool) (q : Nat),
    List.lookup q (upsert m k v) = if q = k then some v else List.lookup q m := by
  intro m
  induction m with
  | nil =>
    intro k v q
    by_cases h : q = k
    · simp [upsert, List.lookup_cons, h]
    · have hb : (q == k) = false := by simp [h]
      simp [upsert, List.lookup_cons, hb, h]
  | cons e rest ih =>
    intro k v q
    obtain ⟨k', v'⟩ := e
    by_cases hk : k' = k
    · subst hk
      rw [upsert, if_pos rfl]
      by_cases hq : q = k'
      · have hb : (q == k') = true := by simp [hq]
        simp [List.lookup_cons, hb, hq]
      · have hb : (q == k') = false := by simp [hq]
        simp [List.lookup_cons, hb, hq]
    · rw [upsert, if_neg hk]
      by_cases hq : q = k'
      · have hb : (q == k') = true := by simp [hq]
        have hqk : ¬ q = k := fun h => hk (hq ▸ h)
        simp [List.lookup_cons, hb, hqk]
      · have hb : (q == k') = false := by simp [hq]
        simp only [List.lookup_cons, hb]
        exact ih k v q

/-- The keys after a dict update. -/
theorem keys_upsert_mem : ∀ (m : List (Nat × Bool)) (k : Nat) (v : Bool) (q : Nat),
    (q ∈ (upsert m k v).map Prod.fst ↔ q ∈ m.map Prod.fst ∨ q = k) := by
  intro m
  induction m with
  | nil =>
    intro k v q
    simp [upsert]
  | cons e rest ih =>
    intro k v q
    obtain ⟨k', v'⟩ := e
    by_cases hk : k' = k
    · subst hk
      rw [upsert, if_pos rfl]
      simp only [List.map_cons, List.mem_cons]
      tauto
    · rw [upsert, if_neg hk]
      simp only [List.map_cons, List.mem_cons, ih]
      tauto

/-- A dict update keeps the keys duplicate-free. -/
theorem keys_upsert_nodup : ∀ (m : List (Nat × Bool)) (k : Nat) (v : Bool),
    (m.map Prod.fst).Nodup → ((upsert m k v).map Prod.fst).Nodup := by
  intro m
  induction m with
  | nil =>
    intro k v _
    simp [upsert]
  | cons e rest ih =>
    intro k v h
    obtain ⟨k', v'⟩ := e
    simp only [List.map_cons, List.nodup_cons] at h
    by_cases hk : k' = k
    · subst hk
      rw [upsert, if_pos rfl]
      simp only [List.map_cons, List.nodup_cons]
      exact h
    · rw [upsert, if_neg hk]
      simp only [List.map_cons, List.nodup_cons]
      refine ⟨?_, ih k v h.2⟩
      intro hmem
      rcases (keys_upsert_mem rest k v k').mp hmem with hmem | hmem
      · exact h.1 hmem
      · exact hk hmem

/-- Counting true values of a duplicate-free dict by key lookup. -/
theorem countP_lookup : ∀ (m : List (Nat × Bool)), (m.map Prod.fst).Nodup →
    m.countP (fun e => e.2)
      = (m.map Prod.fst).countP (fun k => (List.lookup k m).getD false) := by
  intro m
  induction m with
  | nil => intro _; rfl
  | cons e rest ih =>
    intro h
    obtain ⟨k, v⟩ := e
    simp only [List.map_cons, List.nodup_cons] at h
    rw [List.countP_cons, List.map_cons, List.countP_cons]
    have hself : ((List.lookup k ((k, v) :: rest)).getD false) = v := by
      have hb : (k == k) = true := by simp
      simp [List.lookup_cons, hb]
    have hrest : rest.countP (fun e => e.2)
        = (rest.map Prod.fst).countP (fun q => (List.lookup q ((k, v) :: rest)).getD false) := by
      rw [ih h.2]
      refine List.countP_congr ?_
      intro q hq
      have hqk : ¬ q = k := fun he => h.1 (he ▸ hq)
      have hb : (q == k) = false := by simp [hqk]
      simp [List.lookup_cons, hb]
    rw [hrest, hself]

/-- A list with no last element is empty. -/
theorem eq_nil_of_getLast?_eq_none {α : Type} :
    ∀ {l : List α}, l.getLast? = none → l = [] := by
  intro l
  induction l with
  | nil => intro _; rfl
  | cons a t ih =>
    intro h
    cases t with
    | nil => cases h
    | cons b u =>
      rw [List.getLast?_cons_cons] at h
      cases ih h

/-- Dropping the head of a non-empty tail keeps the last element. -/
theorem getLast?_cons_ne {α : Type} (a : α) (l : List α) (h : l ≠ []) :
    (a :: l).getLast? = l.getLast? := by
  cases l with
  | nil => exact absurd rfl h
  | cons b u => exact List.getLast?_cons_cons

/-- Folding dict updates over events: a key's final value is the last
matching event's correctness. -/
theorem lookup_foldl : ∀ (l : List Resposta) (m : List (Nat × Bool)) (q : Nat),
    List.lookup q (l.foldl (fun m r => upsert m r.questao_id r.correto) m)
      = (match (l.filter (fun r => r.questao_id == q)).getLast? with
        | some r => some r.correto
        | none => List.lookup q m) := by
  intro l
  induction l with
  | nil => intro m q; rfl
  | cons r rest ih =>
    intro m q
    rw [List.foldl_cons, ih (upsert m r.questao_id r.correto) q]
    by_cases hq : r.questao_id = q
    · have hf : (r :: rest).filter (fun r => r.questao_id == q)
          = r :: rest.filter (fun r => r.questao_id == q) := by
        simp [List.filter_cons, hq]
      rw [hf]
      cases hrest : (rest.filter (fun r => r.questao_id == q)).getLast? with
      | some s =>
        have hne : rest.filter (fun r => r.questao_id == q) ≠ [] := by
          intro he
          rw [he] at hrest
          cases hrest
        rw [getLast?_cons_ne _ _ hne, hrest]
      | none =>
        rw [eq_nil_of_getLast?_eq_none hrest]
        rw [lookup_upsert, if_pos hq.symm]
        rfl
    · have hf : (r :: rest).filter (fun r => r.questao_id == q)
          = rest.filter (fun r => r.questao_id == q) := by
        simp [List.filter_cons, hq]
      rw [hf]
      cases hrest : (rest.filter (fun r => r.questao_id == q)).getLast? with
      | some s => rfl
      | none =>
        rw [lookup_upsert, if_neg (fun h => hq h.symm)]

/-- The keys accumulated by the fold are the seen question ids. -/
theorem keys_foldl_mem : ∀ (l : List Resposta) (m : List (Nat × Bool)) (q : Nat),
    (q ∈ ((l.foldl (fun m r => upsert m r.questao_id r.correto) m).map Prod.fst)
      ↔ q ∈ m.map Prod.fst ∨ q ∈ l.map (fun r => r.questao_id)) := by
  intro l
  induction l with
  | nil => intro m q; simp
  | cons r rest ih =>
    intro m q
    rw [List.foldl_cons, ih]
    simp only [keys_upsert_mem, List.map_cons, List.mem_cons]
    tauto

/-- The fold keeps the keys duplicate-free. -/
theorem keys_foldl_nodup : ∀ (l : List Resposta) (m : List (Nat × Bool)),
    (m.map Prod.fst).Nodup →
    ((l.foldl (fun m r => upsert m r.questao_id r.correto) m).map Prod.fst).Nodup := by
  intro l
  induction l with
  | nil => intro m h; exact h
  | cons r rest ih =>
    intro m h
    rw [List.foldl_cons]
    exact ih _ (keys_upsert_nodup m r.questao_id r.correto h)

/-- `insertByTime` never empties a list. -/
theorem insertByTime_ne_nil (r : Resposta) (l : List Resposta) :
    insertByTime r l ≠ [] := by
  cases l with
  | nil => simp [insertByTime]
  | cons s t =>
    unfold insertByTime
    split <;> simp

/-- `insertByTime` inserts: the result is a permutation of consing. -/
theorem insertByTime_perm (r : Resposta) : ∀ (l : List Resposta),
    (insertByTime r l).Perm (r :: l) := by
  intro l
  induction l with
  | nil => exact List.Perm.refl _
  | cons s t ih =>
    unfold insertByTime
    split
    · exact (List.Perm.cons s ih).trans (List.Perm.swap r s t)
    · exact List.Perm.refl _

/-- The stable sort permutes its input. -/
theorem sortByTime_perm : ∀ (l : List Resposta), (sortByTime l).Perm l := by
  intro l
  induction l with
  | nil => exact List.Perm.refl _
  | cons r t ih =>
    show (insertByTime r (sortByTime t)).Perm (r :: t)
    exact (insertByTime_perm r (sortByTime t)).trans (List.Perm.cons r ih)

/-- `insertByTime` preserves sortedness by timestamp. -/
theorem pairwise_insertByTime (r : Resposta) : ∀ (l : List Resposta),
    l.Pairwise (fun a b => a.respondido_em ≤ b.respondido_em) →
    (insertByTime r l).Pairwise (fun a b => a.respondido_em ≤ b.respondido_em) := by
  intro l
  induction l with
  | nil =>
    intro _
    simp [insertByTime]
  | cons s t ih =>
    intro h
    rw [List.pairwise_cons] at h
    unfold insertByTime
    split
    · next hlt =>
      rw [List.pairwise_cons]
      refine ⟨?_, ih h.2⟩
      intro x hx
      rcases List.mem_cons.mp ((insertByTime_perm r t).mem_iff.mp hx) with hx | hx
      · subst hx
        omega
      · exact h.1 x hx
    · next hge =>
      rw [List.pairwise_cons]
      refine ⟨?_, List.pairwise_cons.mpr h⟩
      intro x hx
      rcases List.mem_cons.mp hx with hx | hx
      · subst hx
        omega
      · have := h.1 x hx
        omega

/-- The stable sort sorts by timestamp. -/
theorem sortByTime_sorted : ∀ (l : List Resposta),
    (sortByTime l).Pairwise (fun a b => a.respondido_em ≤ b.respondido_em) := by
  intro l
  induction l with
  | nil => exact List.Pairwise.nil
  | cons r t ih => exact pairwise_insertByTime r (sortByTime t) ih

/-- When nothing at the front is strictly earlier, the insertion goes
to the front. -/
theorem insertByTime_front (r : Resposta) (l : List Resposta)
    (h : ∀ x ∈ l.head?, ¬ x.respondido_em < r.respondido_em) :
    insertByTime r l = r :: l := by
  cases l with
  | nil => rfl
  | cons s t =>
    unfold insertByTime
    rw [if_neg (h s rfl)]

/-- Unfolding one insertion step on a cons cell. -/
theorem insertByTime_cons (r s : Resposta) (t : List Resposta) :
    insertByTime r (s :: t)
      = if s.respondido_em < r.respondido_em then s :: insertByTime r t
        else r :: s :: t := rfl

/-- Filtering commutes with inserting into a sorted list. -/
theorem filter_insertByTime (p : Resposta → Bool) (r : Resposta) :
    ∀ (l : List Resposta),
    l.Pairwise (fun a b => a.respondido_em ≤ b.respondido_em) →
    (insertByTime r l).filter p
      = if p r then insertByTime r (l.filter p) else l.filter p := by
  intro l
  induction l with
  | nil =>
    intro _
    cases hpr : p r <;> simp [insertByTime, List.filter_cons, hpr]
  | cons s t ih =>
    intro hs
    rw [List.pairwise_cons] at hs
    rw [insertByTime_cons]
    by_cases hlt : s.respondido_em < r.respondido_em
    · rw [if_pos hlt, List.filter_cons, List.filter_cons, ih hs.2]
      cases hps : p s with
      | true =>
        cases hpr : p r with
        | true =>
          simp only [eq_self_iff_true, if_true]
          rw [insertByTime_cons, if_pos hlt]
        | false =>
          simp only [Bool.false_eq_true, if_false]
      | false =>
        cases hpr : p r with
        | true => simp only [eq_self_iff_true, if_true, Bool.false_eq_true, if_false]
        | false => simp only [Bool.false_eq_true, if_false]
    · rw [if_neg hlt, List.filter_cons]
      cases hpr : p r with
      | true =>
        simp only [eq_self_iff_true, if_true]
        refine (insertByTime_front r _ ?_).symm
        intro x hx
        rw [List.filter_cons] at hx
        cases hps : p s with
        | true =>
          rw [hps] at hx
          simp only [eq_self_iff_true, if_true] at hx
          cases hx
          omega
        | false =>
          rw [hps] at hx
          simp only [Bool.false_eq_true, if_false] at hx
          have hxmem : x ∈ t.filter p := by
            cases hh : (t.filter p).head? with
            | none => rw [hh] at hx; cases hx
            | some y =>
              rw [hh] at hx
              cases hx
              exact List.mem_of_mem_head? hh
          have hxt : x ∈ t := List.mem_of_mem_filter hxmem
          have := hs.1 x hxt
          omega
      | false =>
        simp only [Bool.false_eq_true, if_false]
/-- Inserting into a sorted list: the last element survives unless the
newcomer is strictly later. -/
theorem getLast?_insertByTime (r : Resposta) : ∀ (l : List Resposta),
    l.Pairwise (fun a b => a.respondido_em ≤ b.respondido_em) →
    (insertByTime r l).getLast?
      = (match l.getLast? with
        | none => some r
        | some s => if r.respondido_em ≤ s.respondido_em then some s else some r) := by
  intro l
  induction l with
  | nil => intro _; rfl
  | cons s t ih =>
    intro h
    rw [List.pairwise_cons] at h
    rw [insertByTime_cons]
    by_cases hlt : s.respondido_em < r.respondido_em
    · rw [if_pos hlt]
      rw [getLast?_cons_ne s _ (insertByTime_ne_nil r t), ih h.2]
      cases ht : t.getLast? with
      | none =>
        have hte : t = [] := eq_nil_of_getLast?_eq_none ht
        subst hte
        simp only [List.getLast?_nil, List.getLast?_singleton]
        rw [if_neg (by omega)]
      | some u =>
        have hne : t ≠ [] := by intro he; rw [he] at ht; cases ht
        rw [getLast?_cons_ne s t hne, ht]
    · rw [if_neg hlt]
      rw [List.getLast?_cons_cons]
      cases hu : (s :: t).getLast? with
      | none => exact absurd (eq_nil_of_getLast?_eq_none hu) (List.cons_ne_nil s t)
      | some u =>
        have hmem : u ∈ s :: t := List.mem_of_mem_getLast? hu
        have hle : r.respondido_em ≤ u.respondido_em := by
          rcases List.mem_cons.mp hmem with he | hm
          · subst he; omega
          · have := h.1 u hm; omega
        show some u = if r.respondido_em ≤ u.respondido_em then some u else some r
        rw [if_pos hle]

/-- Sorting commutes with filtering. -/
theorem sortByTime_filter (p : Resposta → Bool) : ∀ (l : List Resposta),
    (sortByTime l).filter p = sortByTime (l.filter p) := by
  intro l
  induction l with
  | nil => rfl
  | cons r t ih =>
    show (insertByTime r (sortByTime t)).filter p = sortByTime ((r :: t).filter p)
    rw [filter_insertByTime p r (sortByTime t) (sortByTime_sorted t), ih]
    rw [List.filter_cons]
    cases hpr : p r with
    | true =>
      simp only [eq_self_iff_true, if_true]
      rfl
    | false =>
      simp only [Bool.false_eq_true, if_false]

/-- The last element of the stable sort is the chronologically last
event (ties to the later-inserted one). -/
theorem getLast?_sortByTime : ∀ (l : List Resposta),
    (sortByTime l).getLast? = lastEvent l := by
  intro l
  induction l with
  | nil => rfl
  | cons r t ih =>
    show (insertByTime r (sortByTime t)).getLast? = lastEvent (r :: t)
    rw [getLast?_insertByTime r (sortByTime t) (sortByTime_sorted t), ih]
    rfl

/-- The aggregation's count equals the specification count, over any
event list. -/
theorem lcm_countP_eq_spec (rs : List Resposta) :
    (last_correct_map rs).countP (fun e => e.2) = spec_correct rs := by
  have hnd : ((last_correct_map rs).map Prod.fst).Nodup := by
    unfold last_correct_map
    exact keys_foldl_nodup _ [] (by simp)
  have hperm : ((last_correct_map rs).map Prod.fst).Perm
      ((rs.map (fun r => r.questao_id)).dedup) := by
    refine (List.perm_ext_iff_of_nodup hnd (List.nodup_dedup _)).mpr ?_
    intro k
    rw [List.mem_dedup]
    unfold last_correct_map
    rw [keys_foldl_mem]
    simp only [List.map_nil, List.not_mem_nil, false_or]
    exact List.Perm.mem_iff ((sortByTime_perm rs).map (fun r => r.questao_id))
  rw [countP_lookup _ hnd, List.Perm.countP_congr hperm ?_, spec_correct]
  intro k hk
  unfold last_correct_map
  rw [lookup_foldl, sortByTime_filter, getLast?_sortByTime]
  simp only [eventsFor]
  cases lastEvent (rs.filter (fun r => r.questao_id == k)) with
  | none => rfl
  | some u => rfl
/-- C1 (amended): in the Mongo implementation, the correct count of the
performance summary equals the number of distinct questions whose
chronologically last AnswerEvent for the questionnaire (ordered by
timestamp, ties broken towards the later-inserted event) is correct;
earlier events never affect the count.  (The sqlite revision differs:
see `claim1_counterexample`.) -/
theorem desempenho_acertos_eq_spec (st : Store) (qid : Nat) :
    (desempenho_questionario st qid).2
      = spec_correct (st.respostas.filter (fun r => r.questionario_id == qid)) := by
  show (last_correct_map
      (st.respostas.filter (fun r => r.questionario_id == qid))).countP (fun e => e.2) = _
  exact lcm_countP_eq_spec _
